import Mathlib

/-!
# flow-voter: checkpoint store, audit-path decoder and the two chain monitors

A shallow embedding of `pkg/db/db.go`, `pkg/voter/util.go` and `pkg/voter/voter.go`.

* Machine integers are natural numbers; every place where the Go code can wrap
  (`uint64`, `uint32`) carries an explicit `% 2 ^ 64` or `% 2 ^ 32`.
* Byte slices are `List Nat`; a Go `nil` slice is `none`, an allocated slice is `some`.
* A Go `error` is `Option String`, with `none` for `nil`.
* Calls that leave the process (chain RPC, bolt I/O, the context's `Done` channel) are
  replaced by the answers they gave: the answers are inputs of the embedded function.
-/

namespace FlowVoter

/-! ## `encoding/binary`: little-endian fixed-width integers -/

/-- The `k` low bytes of `h`, least significant first: `binary.LittleEndian.PutUint64`
for `k = 8`, `PutUint32` for `k = 4`. -/
def putUintLE : Nat → Nat → List Nat
  | 0, _ => []
  | k + 1, h => h % 256 :: putUintLE k (h / 256)

/-- The number whose little-endian digits (base 256) are the given bytes. -/
def uintLE : List Nat → Nat
  | [] => 0
  | b :: bs => b + 256 * uintLE bs

/-! ## `pkg/db/db.go` -/

/-- The bolt database: the bucket `Height`, a map from key to bytes
(`bkt.Get` gives `nil` for an absent key). -/
structure BoltDB where
  height : String → Option (List Nat)

def FlowHeightKey : String := "side_height"

def PolyHeightKey : String := "poly_height"

/-- The body of `bkt.Put(key, raw)`. -/
def BoltDB.put (w : BoltDB) (key : String) (raw : List Nat) : BoltDB :=
  ⟨fun k => if k = key then some raw else w.height k⟩

/-- The transaction `w.db.Update(fn)`: when bolt commits the store is the one `fn` built
and the error is `nil`; when it does not, the store is the old one and the error is set. -/
def BoltDB.update (w : BoltDB) (fn : BoltDB → BoltDB) (commits : Bool) :
    Option String × BoltDB :=
  if commits then (none, fn w) else (some "bolt: update failed", w)

/-- `UpdateFlowHeight(h uint64) error`. -/
def BoltDB.UpdateFlowHeight (w : BoltDB) (h : Nat) (commits : Bool) : Option String × BoltDB :=
  let raw := putUintLE 8 h
  w.update (fun tx => tx.put FlowHeightKey raw) commits

/-- `GetFlowHeight() uint64`; `none` is the panic of `binary.LittleEndian.Uint64` on a
stored value of 1 to 7 bytes. -/
def BoltDB.GetFlowHeight (w : BoltDB) : Option Nat :=
  match w.height FlowHeightKey with
  | none => some 0
  | some raw =>
    if raw.length = 0 then some 0
    else if raw.length < 8 then none
    else some (uintLE (raw.take 8))

/-- `UpdatePolyHeight(h uint32) error`. -/
def BoltDB.UpdatePolyHeight (w : BoltDB) (h : Nat) (commits : Bool) : Option String × BoltDB :=
  let raw := putUintLE 4 h
  w.update (fun tx => tx.put PolyHeightKey raw) commits

/-- `GetPolyHeight() uint32`; `none` is the panic of `binary.LittleEndian.Uint32` on a
stored value of 1 to 3 bytes. -/
def BoltDB.GetPolyHeight (w : BoltDB) : Option Nat :=
  match w.height PolyHeightKey with
  | none => some 0
  | some raw =>
    if raw.length = 0 then some 0
    else if raw.length < 4 then none
    else some (uintLE (raw.take 4))

/-- A freshly created database: the bucket exists and holds no key. -/
def BoltDB.empty : BoltDB := ⟨fun _ => none⟩

/-! ## `common.ZeroCopySource` of the poly library, as far as `parseAuditpath` uses it

The reader is library code; it is embedded from its published behaviour: a byte slice
with a read offset, every `Next…` returning the data read and an end-of-input flag. -/

/-- A byte slice `s` with the index `off` of the next unread byte. -/
structure ZeroCopySource where
  s : List Nat
  off : Nat
deriving DecidableEq, Repr

def UINT256_SIZE : Nat := 32

def NewZeroCopySource (b : List Nat) : ZeroCopySource := ⟨b, 0⟩

/-- `Size()`: the length of the underlying slice. -/
def ZeroCopySource.Size (z : ZeroCopySource) : Nat := z.s.length

/-- `Pos()`: the read offset. -/
def ZeroCopySource.Pos (z : ZeroCopySource) : Nat := z.off

/-- `NextByte()`: end of input when the offset has reached the length. -/
def ZeroCopySource.NextByte (z : ZeroCopySource) : Nat × Bool × ZeroCopySource :=
  if z.s.length ≤ z.off then (0, true, z)
  else (z.s.getD z.off 0, false, { z with off := z.off + 1 })

/-- `NextBytes(n)`: `end := off + n`; when that addition overflows 64 bits or passes the
length, `end` is the length and the flag is set; the data is `s[off:end]`. -/
def ZeroCopySource.NextBytes (z : ZeroCopySource) (n : Nat) :
    List Nat × Bool × ZeroCopySource :=
  let m := z.s.length
  if 2 ^ 64 ≤ z.off + n ∨ m < z.off + n then
    ((z.s.take m).drop z.off, true, { z with off := m })
  else
    ((z.s.take (z.off + n)).drop z.off, false, { z with off := z.off + n })

/-- `NextUint16`, `NextUint32`, `NextUint64` for `w = 2, 4, 8`: `w` bytes, little endian. -/
def ZeroCopySource.NextUint (z : ZeroCopySource) (w : Nat) : Nat × Bool × ZeroCopySource :=
  match z.NextBytes w with
  | (buf, eof, z1) => if eof then (0, true, z1) else (uintLE buf, false, z1)

/-- `NextVarUint()`: one byte below `0xFD` is the number itself; `0xFD`, `0xFE`, `0xFF`
announce a 2, 4 or 8 byte little-endian number. -/
def ZeroCopySource.NextVarUint (z : ZeroCopySource) : Nat × Bool × ZeroCopySource :=
  match z.NextByte with
  | (fb, eof, z1) =>
    if eof then (0, true, z1)
    else if fb = 0xFD then z1.NextUint 2
    else if fb = 0xFE then z1.NextUint 4
    else if fb = 0xFF then z1.NextUint 8
    else (fb, false, z1)

/-- `NextVarBytes()`: a var-uint count, then that many bytes. -/
def ZeroCopySource.NextVarBytes (z : ZeroCopySource) : List Nat × Bool × ZeroCopySource :=
  match z.NextVarUint with
  | (count, eof, z1) => if eof then ([], true, z1) else z1.NextBytes count

/-- `NextHash()`: 32 bytes; on end of input the hash is the zero value. -/
def ZeroCopySource.NextHash (z : ZeroCopySource) : List Nat × Bool × ZeroCopySource :=
  match z.NextBytes UINT256_SIZE with
  | (buf, eof, z1) => if eof then (List.replicate 32 0, true, z1) else (buf, false, z1)

/-- `WriteVarUint` of the matching writer: the encoding `NextVarUint` reads. -/
def varUint (n : Nat) : List Nat :=
  if n < 0xFD then [n]
  else if n ≤ 0xFFFF then 0xFD :: putUintLE 2 n
  else if n ≤ 0xFFFFFFFF then 0xFE :: putUintLE 4 n
  else 0xFF :: putUintLE 8 n

/-! ## `pkg/voter/util.go` -/

/-- The four results of `parseAuditpath`: value, direction flags, hashes, error. -/
structure AuditPath where
  value : Option (List Nat)
  pos : Option (List Nat)
  hashs : Option (List (List Nat))
  err : Option String
deriving DecidableEq, Repr

/-- The statement `return nil, nil, nil, nil`. -/
def AuditPath.nils : AuditPath := ⟨none, none, none, none⟩

/-- The loop `for i := 0; i < size; i++` of `parseAuditpath`, by the number of rounds
left; `none` is the `return nil, nil, nil, nil` inside the loop. -/
def parseAuditpathLoop :
    Nat → ZeroCopySource → List Nat → List (List Nat) → Option (List Nat × List (List Nat))
  | 0, _, pos, hashs => some (pos, hashs)
  | n + 1, source, pos, hashs =>
    match source.NextByte with
    | (f, eof, source1) =>
      if eof then none
      else
        match source1.NextHash with
        | (v, eof, source2) =>
          if eof then none
          else parseAuditpathLoop n source2 (pos ++ [f]) (hashs ++ [v.take 32])

/-- `parseAuditpath(path []byte) ([]byte, []byte, [][32]byte, error)`. -/
def parseAuditpath (path : List Nat) : AuditPath :=
  let source := NewZeroCopySource path
  match source.NextVarBytes with
  | (value, eof, source1) =>
    if eof then AuditPath.nils
    else
      let size := (source1.Size - source1.Pos) / UINT256_SIZE
      match parseAuditpathLoop size source1 [] [] with
      | none => AuditPath.nils
      | some (pos, hashs) => ⟨some value, some pos, some hashs, none⟩

/-- The buffer the decoder is meant for: the var-length-prefixed value, then one
(flag, 32-byte hash) pair per level. -/
def encodeAuditpath (v : List Nat) (levels : List (Nat × List Nat)) : List Nat :=
  varUint v.length ++ v ++ (levels.map (fun p => p.1 :: p.2)).flatten

/-! ## `pkg/voter/voter.go`: the two per-height handlers

What the chains answered while a handler ran is part of the handler's input: every
event comes with the answers the relay chain gave to the calls made for it. A handler
yields the relay-chain calls it made, in order, and how it ended. -/

/-- How a handler call ends: `return` with a `nil` error, `return` with an error, or a
run-time panic (an index out of range, a failed type assertion). -/
inductive Outcome
  | ok
  | err (e : String)
  | panicked
deriving DecidableEq, Repr

/-- The relay-chain calls of the two handlers. `getStorage` is the done-marker query with
its storage key; `parseAuditpath` is the decode of a fetched proof. -/
inductive PolyCall
  | getStorage (key : List Nat)
  | commitVote (height : Nat) (value : List Nat) (txhash : List Nat)
  | waitTx (txHash : String)
  | getHeaderByHeight (height : Nat)
  | getSmartContractEventByBlock (height : Nat)
  | getCrossStatesProof (height : Nat) (key : String)
  | parseAuditpath (path : List Nat)
  | sign4Flow (data : List Nat)
  | commitSig (subject : List Nat) (sig : List Nat)
deriving DecidableEq, Repr

/-- One handler call: the calls made and the way it ended. -/
structure Run where
  calls : List PolyCall
  result : Outcome
deriving DecidableEq, Repr

/-- The run that first made the calls `cs` and then went on as `r`. -/
def Run.after (cs : List PolyCall) (r : Run) : Run := ⟨cs ++ r.calls, r.result⟩

/-- Sequencing inside a handler: when `r` ended with `return` or a panic the handler ended
there; when `r` ran through, the handler goes on as `k`. -/
def Run.andThen (r k : Run) : Run :=
  match r.result with
  | .ok => k.after r.calls
  | _ => r

/-- A loop `for _, x := range xs { body }` whose body either runs through (also by
`continue`), which is `.ok`, or leaves the handler. -/
def forEach {α : Type} (body : α → Run) : List α → Run
  | [] => ⟨[], .ok⟩
  | x :: xs => (body x).andThen (forEach body xs)

/-- A field of a cadence event: a string, or a value of another type. -/
inductive CadenceValue
  | str (s : String)
  | other
deriving DecidableEq, Repr

/-- A source-chain event: `event.Type`, `event.Value.Fields`, `event.TransactionID`. -/
structure FlowEvent where
  type : String
  fields : List CadenceValue
  transactionID : List Nat
deriving DecidableEq, Repr

/-- The fields of `common2.MakeTxParam` the voter reads. -/
structure MakeTxParam where
  method : String
  crossChainID : List Nat
deriving DecidableEq, Repr

/-- The configuration, the constants and the decoders the handlers are given:
`conf.FlowConfig`, `conf.PolyConfig`, `conf.IsWhitelistMethod`, the bytes of the constant
`cross_chain_manager.DONE_TX`, `hex.DecodeString` (bytes and error),
`MakeTxParam.Deserialization` and `ToMerkleValue.Deserialization` (its error). -/
structure Config where
  eventType : String
  sideChainId : Nat
  doneTx : List Nat
  entranceContractAddress : String
  isWhitelistMethod : String → Bool
  hexDecodeString : String → List Nat × Option String
  makeTxParam : List Nat → Except String MakeTxParam
  toMerkleValue : List Nat → Option String

/-- What the relay chain answers while one source-chain event is handled: to `GetStorage`
of the cross-chain manager contract, by storage key (no bytes when the key is absent or
the query fails), to `commitVote`, and to `waitTx` (its error). -/
structure VoteAnswers where
  getStorage : List Nat → List Nat
  commit : Except String String
  wait : Option String

/-- The decoding of one event of the configured type: `fields[len(fields)-1]` as a
string, hex-decoded, deserialized. -/
inductive Decoded
  | panicked
  | failed (e : String)
  | ok (rawParam : List Nat) (param : MakeTxParam)
deriving DecidableEq, Repr

/-- Lines 211-224 of `fetchLockDepositEvents`. -/
def decodeEvent (conf : Config) (event : FlowEvent) : Decoded :=
  match event.fields.getLast? with
  | none => .panicked
  | some .other => .panicked
  | some (.str s) =>
    match conf.hexDecodeString s with
    | (_, some e) => .failed e
    | (rawParam, none) =>
      match conf.makeTxParam rawParam with
      | .error e => .failed e
      | .ok param => .ok rawParam param

/-- The body of the loop `for _, event := range events` of `fetchLockDepositEvents`,
for one event and the relay chain's answers for it. -/
def lockDepositEvent (conf : Config) (height : Nat) (ea : FlowEvent × VoteAnswers) : Run :=
  if ea.1.type ≠ conf.eventType then ⟨[], .ok⟩
  else
    match decodeEvent conf ea.1 with
    | .panicked => ⟨[], .panicked⟩
    | .failed e => ⟨[], .err e⟩
    | .ok rawParam param =>
      if !conf.isWhitelistMethod param.method then ⟨[], .ok⟩
      else
        let key := conf.doneTx ++ putUintLE 8 conf.sideChainId ++ param.crossChainID
        let raw := ea.2.getStorage key
        if raw.length ≠ 0 then ⟨[.getStorage key], .ok⟩
        else
          match ea.2.commit with
          | .error e =>
            ⟨[.getStorage key, .commitVote (height % 2 ^ 32) rawParam ea.1.transactionID],
              .err e⟩
          | .ok txHash =>
            match ea.2.wait with
            | some e =>
              ⟨[.getStorage key, .commitVote (height % 2 ^ 32) rawParam ea.1.transactionID,
                .waitTx txHash], .err e⟩
            | none =>
              ⟨[.getStorage key, .commitVote (height % 2 ^ 32) rawParam ea.1.transactionID,
                .waitTx txHash], .ok⟩

/-- `fetchLockDepositEvents(height uint64) error`; `blockEvents` is the answer of
`GetEventsForHeightRange`. -/
def fetchLockDepositEvents (conf : Config) (height : Nat)
    (blockEvents : Except String (List (List (FlowEvent × VoteAnswers)))) : Run :=
  match blockEvents with
  | .error e => ⟨[], .err e⟩
  | .ok [] => ⟨[], .ok⟩
  | .ok (events :: _) => forEach (lockDepositEvent conf height) events

/-- The submissions among the calls of a run: the arguments of each `commitVote`. -/
def commitVotes (calls : List PolyCall) : List (Nat × List Nat × List Nat) :=
  calls.filterMap fun c =>
    match c with
    | .commitVote h v t => some (h, v, t)
    | _ => none

/-- The done-marker queries among the calls of a run: the key of each `getStorage`. -/
def getStorages (calls : List PolyCall) : List (List Nat) :=
  calls.filterMap fun c =>
    match c with
    | .getStorage key => some key
    | _ => none

/-- An element of `notify.States`: a string, a number (a `float64`, given by the value
of its conversion to `uint64`), or a value of another type. -/
inductive StateValue
  | str (s : String)
  | num (n : Nat)
  | other
deriving DecidableEq, Repr

/-- A relay-chain notification; `states` is `none` when `notify.States` is not a
`[]interface{}`. -/
structure NotifyEventInfo where
  contractAddress : String
  states : Option (List StateValue)
deriving DecidableEq, Repr

/-- What the relay chain answered for one settlement request: the proof's `AuditPath`,
the signature, the result of `commitSig`, the error of `waitTx`. -/
structure SigAnswers where
  proof : Except String String
  sign : Except String (List Nat)
  commit : Except String String
  wait : Option String
deriving Repr

/-- The body of the inner loop `for _, notify := range event.Notify` of
`handleMakeTxEvents`, for one notification and the relay chain's answers for it;
`hdrHeight` is `hdr.Height`. -/
def makeTxNotify (conf : Config) (hdrHeight : Nat) (na : NotifyEventInfo × SigAnswers) : Run :=
  if na.1.contractAddress ≠ conf.entranceContractAddress then ⟨[], .ok⟩
  else
    match na.1.states with
    | none => ⟨[], .panicked⟩
    | some (states : List StateValue) =>
      match (states[0]? : Option StateValue) with
      | none => ⟨[], .panicked⟩
      | some s0 =>
        if s0 ≠ .str "makeProof" then ⟨[], .ok⟩
        else
          match (states[2]? : Option StateValue) with
          | some (.num sid) =>
            if sid ≠ conf.sideChainId then ⟨[], .ok⟩
            else
              match (states[5]? : Option StateValue) with
              | some (.str key) =>
                let fetch :=
                  PolyCall.getCrossStatesProof ((hdrHeight + 2 ^ 32 - 1) % 2 ^ 32) key
                match na.2.proof with
                | .error e => ⟨[fetch], .err e⟩
                | .ok auditPathHex =>
                  let auditpath := (conf.hexDecodeString auditPathHex).1
                  let value := ((parseAuditpath auditpath).value).getD []
                  match conf.toMerkleValue value with
                  | some e => ⟨[fetch, .parseAuditpath auditpath], .err e⟩
                  | none =>
                    match na.2.sign with
                    | .error e =>
                      ⟨[fetch, .parseAuditpath auditpath, .sign4Flow value], .err e⟩
                    | .ok sig =>
                      match na.2.commit with
                      | .error e =>
                        ⟨[fetch, .parseAuditpath auditpath, .sign4Flow value,
                          .commitSig value sig], .err e⟩
                      | .ok txHash =>
                        match na.2.wait with
                        | some e =>
                          ⟨[fetch, .parseAuditpath auditpath, .sign4Flow value,
                            .commitSig value sig, .waitTx txHash], .err e⟩
                        | none =>
                          ⟨[fetch, .parseAuditpath auditpath, .sign4Flow value,
                            .commitSig value sig, .waitTx txHash], .ok⟩
              | _ => ⟨[], .panicked⟩
          | _ => ⟨[], .panicked⟩

/-- `handleMakeTxEvents(height uint32) error`; `hdr` is the answer of
`GetHeaderByHeight(height + 1)` (the header's `Height`), `events` the answer of
`GetSmartContractEventByBlock(height)`, each event being its list `event.Notify`. -/
def handleMakeTxEvents (conf : Config) (height : Nat) (hdr : Except String Nat)
    (events : Except String (List (List (NotifyEventInfo × SigAnswers)))) : Run :=
  match hdr with
  | .error e => ⟨[.getHeaderByHeight ((height + 1) % 2 ^ 32)], .err e⟩
  | .ok hdrHeight =>
    match events with
    | .error e =>
      ⟨[.getHeaderByHeight ((height + 1) % 2 ^ 32), .getSmartContractEventByBlock height],
        .err e⟩
    | .ok events =>
      (forEach (fun event => forEach (makeTxNotify conf hdrHeight) event) events).after
        [.getHeaderByHeight ((height + 1) % 2 ^ 32), .getSmartContractEventByBlock height]

/-! ## `pkg/voter/voter.go`: the two monitors

A monitor is a state machine over what it observes at its outer `select`: the ticker
firing or the context being done. What happens inside a tick (the answer to the height
query, what each round of the per-height loop sees, whether bolt commits) comes with the
tick. A run of observations that ends inside the per-height loop leaves the monitor
inside the loop. -/

def FLOW_USEFUL_BLOCK_NUM : Nat := 3

def ONT_USEFUL_BLOCK_NUM : Nat := 1

/-- What one round of a per-height loop sees: `<-ctx.Done()` ready at the inner `select`,
or the `default` branch followed by the handler's return value. -/
inductive LoopObs
  | done
  | handled (err : Option String)
deriving DecidableEq, Repr

/-- What a monitor does that can be seen from outside: a handler call for a height with
its success, a checkpoint write of a height with its success. -/
inductive Action
  | handle (height : Nat) (ok : Bool)
  | update (height : Nat) (ok : Bool)
deriving DecidableEq, Repr

/-- How a per-height loop is left: its condition became false, it executed `return`, or
the observations ended while it was still running. -/
inductive LoopExit
  | finished
  | returned
  | pending
deriving DecidableEq, Repr

/-- The state of a per-height loop when it is left. -/
structure LoopEnd where
  exit : LoopExit
  nextHeight : Nat
  acts : List Action
deriving DecidableEq, Repr

/-- The loop end `e` preceded by the action `a`. -/
def LoopEnd.cons (a : Action) (e : LoopEnd) : LoopEnd := { e with acts := a :: e.acts }

/-- The loop `for nextHeight < height-USEFUL_BLOCK_NUM { select … }` of both monitors;
`bound` is `height-USEFUL_BLOCK_NUM`, `W` is `2 ^ 64` in `monitorFlow` and `2 ^ 32` in
`monitorPoly` (for `nextHeight++`). -/
def heightLoop (W bound : Nat) : List LoopObs → Nat → LoopEnd
  | [], nextHeight =>
    if nextHeight < bound then ⟨.pending, nextHeight, []⟩ else ⟨.finished, nextHeight, []⟩
  | o :: obs, nextHeight =>
    if nextHeight < bound then
      match o with
      | .done => ⟨.returned, nextHeight, []⟩
      | .handled (some _) =>
        (heightLoop W bound obs nextHeight).cons (.handle nextHeight false)
      | .handled none =>
        (heightLoop W bound obs ((nextHeight + 1) % W)).cons (.handle nextHeight true)
    else ⟨.finished, nextHeight, []⟩

/-- Where a monitor is: at its outer `select`, returned, or inside its per-height loop
at the end of the observations. -/
inductive Status
  | running
  | returned
  | inLoop
deriving DecidableEq, Repr

/-- The state of a monitor: its variable `nextHeight`, the database, where it is, and
what it has done so far. -/
structure Monitor where
  nextHeight : Nat
  bdb : BoltDB
  status : Status
  log : List Action

/-- What a monitor observes at its outer `select`. -/
inductive Event
  | tick (height : Except String Nat) (obs : List LoopObs) (commits : Bool)
  | done

/-- `getFlowStartHeight()`; `latest` is the answer of `GetLatestBlockHeader`; `none` is
`log.Fatalf` or a panic. -/
def getFlowStartHeight (forceFlowHeight : Nat) (bdb : BoltDB) (latest : Except String Nat) :
    Option Nat :=
  if forceFlowHeight > 0 then some forceFlowHeight
  else
    match bdb.GetFlowHeight with
    | none => none
    | some startHeight =>
      if startHeight > 0 then some startHeight
      else
        match latest with
        | .error _ => none
        | .ok height => some height

/-- `getPolyStartHeight()`; `latest` is the answer of `GetCurrentBlockHeight`. -/
def getPolyStartHeight (forcePolyHeight : Nat) (bdb : BoltDB) (latest : Except String Nat) :
    Option Nat :=
  if forcePolyHeight > 0 then some forcePolyHeight
  else
    match bdb.GetPolyHeight with
    | none => none
    | some startHeight =>
      if startHeight > 0 then some startHeight
      else
        match latest with
        | .error _ => none
        | .ok height => some height

/-- A monitor that has just computed its start height. -/
def Monitor.start (nextHeight : Nat) (bdb : BoltDB) : Monitor :=
  ⟨nextHeight, bdb, .running, []⟩

/-- The branch `case <-ticker.C` of `monitorFlow`. -/
def monitorFlowTick (m : Monitor) (header : Except String Nat) (obs : List LoopObs)
    (commits : Bool) : Monitor :=
  match header with
  | .error _ => m
  | .ok height =>
    if height < (m.nextHeight + FLOW_USEFUL_BLOCK_NUM) % 2 ^ 64 then m
    else
      match heightLoop (2 ^ 64) ((height + 2 ^ 64 - FLOW_USEFUL_BLOCK_NUM) % 2 ^ 64) obs
          m.nextHeight with
      | ⟨.returned, nextHeight, acts⟩ =>
        { m with nextHeight := nextHeight, status := .returned, log := m.log ++ acts }
      | ⟨.pending, nextHeight, acts⟩ =>
        { m with nextHeight := nextHeight, status := .inLoop, log := m.log ++ acts }
      | ⟨.finished, nextHeight, acts⟩ =>
        { m with
          nextHeight := nextHeight
          bdb := (m.bdb.UpdateFlowHeight nextHeight commits).2
          log := m.log ++ acts ++ [.update nextHeight commits] }

/-- One turn of the outer `for { select … }` of `monitorFlow`. -/
def monitorFlowStep (m : Monitor) (ev : Event) : Monitor :=
  match m.status with
  | .running =>
    match ev with
    | .tick header obs commits => monitorFlowTick m header obs commits
    | .done => { m with status := .returned }
  | _ => m

/-- The branch `case <-ticker.C` of `monitorPoly`. -/
def monitorPolyTick (m : Monitor) (current : Except String Nat) (obs : List LoopObs)
    (commits : Bool) : Monitor :=
  match current with
  | .error _ => m
  | .ok current =>
    let height := (current + 2 ^ 32 - 1) % 2 ^ 32
    if height < (m.nextHeight + ONT_USEFUL_BLOCK_NUM) % 2 ^ 32 then m
    else
      match heightLoop (2 ^ 32) ((height + 2 ^ 32 - ONT_USEFUL_BLOCK_NUM) % 2 ^ 32) obs
          m.nextHeight with
      | ⟨.returned, nextHeight, acts⟩ =>
        { m with nextHeight := nextHeight, status := .returned, log := m.log ++ acts }
      | ⟨.pending, nextHeight, acts⟩ =>
        { m with nextHeight := nextHeight, status := .inLoop, log := m.log ++ acts }
      | ⟨.finished, nextHeight, acts⟩ =>
        { m with
          nextHeight := nextHeight
          bdb := (m.bdb.UpdatePolyHeight nextHeight commits).2
          log := m.log ++ acts ++ [.update nextHeight commits] }

/-- One turn of the outer `for { select … }` of `monitorPoly`; its branch
`case <-ctx.Done()` logs and goes round again. -/
def monitorPolyStep (m : Monitor) (ev : Event) : Monitor :=
  match m.status with
  | .running =>
    match ev with
    | .tick current obs commits => monitorPolyTick m current obs commits
    | .done => m
  | _ => m

/-- `monitorFlow` from its start height through a sequence of observations. -/
def monitorFlow (nextHeight : Nat) (bdb : BoltDB) (evs : List Event) : Monitor :=
  evs.foldl monitorFlowStep (Monitor.start nextHeight bdb)

/-- `monitorPoly` from its start height through a sequence of observations. -/
def monitorPoly (nextHeight : Nat) (bdb : BoltDB) (evs : List Event) : Monitor :=
  evs.foldl monitorPolyStep (Monitor.start nextHeight bdb)

/-- What a handler's outcome looks like to the per-height loop; a panic ends the
process, so the loop sees nothing. -/
def Outcome.obs : Outcome → List LoopObs
  | .ok => [.handled none]
  | .err e => [.handled (some e)]
  | .panicked => []

/-- The handler calls in a log, in order. -/
def handlerCalls (log : List Action) : List (Nat × Bool) :=
  log.filterMap fun a =>
    match a with
    | .handle h ok => some (h, ok)
    | .update _ _ => none

/-- The heights a log records as handled with success, in order. -/
def handled (log : List Action) : List Nat :=
  log.filterMap fun a =>
    match a with
    | .handle h true => some h
    | _ => none

/-- Replays a log against a height cursor: a handler call must be for the cursor and
moves it by one exactly when it succeeded, a checkpoint write must write the cursor.
The result is the final cursor, `none` when the log breaks the discipline. -/
def replay : Nat → List Action → Option Nat
  | c, [] => some c
  | c, .handle h ok :: log => if h = c then replay (if ok then c + 1 else c) log else none
  | c, .update h _ :: log => if h = c then replay c log else none

/-- The handler calls of a monitor started at `n` go height by height: the first call
is for `n`, a call after a failure is for the same height, a call after a success is
for the next one; the heights handled with success are `n, n+1, …` up to the monitor's
`nextHeight`, each once; and when a checkpoint `v` is written, the heights handled with
success before it are exactly `n, …, v-1`. -/
def InOrder (n : Nat) (m : Monitor) : Prop :=
  (∀ c ∈ (handlerCalls m.log).head?, c.1 = n) ∧
  List.Chain' (fun a b : Nat × Bool => b.1 = if a.2 then a.1 + 1 else a.1)
    (handlerCalls m.log) ∧
  (n ≤ m.nextHeight ∧ handled m.log = List.range' n (m.nextHeight - n)) ∧
  ∀ pre v ok post, m.log = pre ++ Action.update v ok :: post →
    n ≤ v ∧ handled pre = List.range' n (v - n)

/-- A database in which both checkpoints are 100. -/
def BoltDB.both100 : BoltDB :=
  ((BoltDB.empty.UpdateFlowHeight 100 true).2.UpdatePolyHeight 100 true).2

/-- A configuration for worked examples: event type `"A.LockProxy.Lock"`, side chain 7,
entrance contract `"0300"`, allow-list `lock`; the hex decoder rejects `"zz"` and reads
anything else as the bytes `[1, 7]`; every payload deserializes, with method `lock`. -/
def Config.example : Config where
  eventType := "A.LockProxy.Lock"
  sideChainId := 7
  doneTx := [100, 111, 110, 101, 84, 120]
  entranceContractAddress := "0300"
  isWhitelistMethod := fun m => m == "lock"
  hexDecodeString := fun s => if s = "zz" then ([], some "invalid byte") else ([1, 7], none)
  makeTxParam := fun _ => .ok ⟨"lock", [9]⟩
  toMerkleValue := fun _ => none

/-- Relay-chain answers for a transfer that is not yet done and is accepted. -/
def VoteAnswers.accepted : VoteAnswers := ⟨fun _ => [], .ok "tx", none⟩

/-- An event of the configured type whose last field is not valid hex. -/
def FlowEvent.malformed : FlowEvent := ⟨"A.LockProxy.Lock", [.str "zz"], [1]⟩

/-- An event of the configured type with a decodable payload. -/
def FlowEvent.wellFormed : FlowEvent := ⟨"A.LockProxy.Lock", [.str "0107"], [2]⟩

/-- Relay-chain answers for a transfer whose done marker is already stored: the key made
of `doneTx`, the side-chain id 7 in 8 little-endian bytes and the cross-chain id `[9]`
holds a byte, every other key is absent. -/
def VoteAnswers.alreadyDone : VoteAnswers :=
  ⟨fun key =>
      if key = [100, 111, 110, 101, 84, 120, 7, 0, 0, 0, 0, 0, 0, 0, 9] then [1] else [],
    .ok "tx", none⟩

/-- An event of another type. -/
def FlowEvent.unrelated : FlowEvent := ⟨"A.FlowToken.Deposit", [], [3]⟩

/-- A notification of the entrance contract: method `makeProof`, side chain 7, storage
key `"key"`. -/
def NotifyEventInfo.makeProof : NotifyEventInfo :=
  ⟨"0300", some [.str "makeProof", .other, .num 7, .other, .other, .str "key"]⟩

/-- Relay-chain answers for a settlement request that goes through. -/
def SigAnswers.confirmed : SigAnswers := ⟨.ok "0107", .ok [5], .ok "tx", none⟩

/-- Relay-chain answers for a settlement request whose confirmation times out. -/
def SigAnswers.timedOut : SigAnswers := ⟨.ok "0107", .ok [5], .ok "tx", some "waitTx timeout"⟩

/-- A notification `handleMakeTxEvents` passes over: it is not from the entrance
contract, or its first state is not the string `makeProof`, or its third state is a
number other than the configured side-chain id. -/
def passedOver (conf : Config) (n : NotifyEventInfo) : Prop :=
  n.contractAddress ≠ conf.entranceContractAddress ∨
  ∃ states s0, n.states = some states ∧ states[0]? = some s0 ∧
    (s0 ≠ .str "makeProof" ∨
      ∃ sid, states[2]? = some (StateValue.num sid) ∧ sid ≠ conf.sideChainId)

/-- A settlement request for this relayer: a notification of the entrance contract whose
first state is `makeProof`, whose third is the configured side-chain id and whose sixth
is the storage key `key`. -/
def isMakeProof (conf : Config) (key : String) (n : NotifyEventInfo) : Prop :=
  n.contractAddress = conf.entranceContractAddress ∧
  ∃ states, n.states = some states ∧ states[0]? = some (StateValue.str "makeProof") ∧
    states[2]? = some (StateValue.num conf.sideChainId) ∧
    states[5]? = some (StateValue.str key)

/-- The first `n` levels held by the bytes `rest` that follow the value: level by level,
one flag byte and the 32 hash bytes after it, 33 bytes each. -/
def wholeLevels : Nat → List Nat → List (Nat × List Nat)
  | 0, _ => []
  | n + 1, rest => (rest.headD 0, (rest.drop 1).take 32) :: wholeLevels n (rest.drop 33)

/-! ## Lemmas: little-endian integers -/

theorem putUintLE_length (k h : Nat) : (putUintLE k h).length = k := by
  induction k generalizing h with
  | zero => rfl
  | succ k ih => simp [putUintLE, ih]

theorem uintLE_putUintLE (k h : Nat) : uintLE (putUintLE k h) = h % 256 ^ k := by
  induction k generalizing h with
  | zero => simp [putUintLE, uintLE, Nat.mod_one]
  | succ k ih =>
    simp only [putUintLE, uintLE, ih]
    rw [pow_succ, mul_comm (256 ^ k) 256, Nat.mod_mul]

theorem putUintLE_eq_map (k h : Nat) :
    putUintLE k h = (List.range k).map (fun i => h / 256 ^ i % 256) := by
  induction k generalizing h with
  | zero => rfl
  | succ k ih =>
    rw [List.range_succ_eq_map, List.map_cons, List.map_map, putUintLE, ih]
    simp only [pow_zero, Nat.div_one, List.cons.injEq, true_and]
    apply List.map_congr_left
    intro i _
    simp [Function.comp, pow_succ, Nat.div_div_eq_div_mul, mul_comm]

theorem keys_ne : PolyHeightKey ≠ FlowHeightKey := by decide

theorem getFlowHeight_update (w : BoltDB) (a : Nat) (ha : a < 2 ^ 64) :
    (w.UpdateFlowHeight a true).2.GetFlowHeight = some a := by
  have h8 : (putUintLE 8 a).take 8 = putUintLE 8 a :=
    List.take_of_length_le (by rw [putUintLE_length])
  simp only [BoltDB.UpdateFlowHeight, BoltDB.update, BoltDB.put, BoltDB.GetFlowHeight,
    if_true, putUintLE_length, h8, uintLE_putUintLE]
  simpa using ha

theorem getPolyHeight_update (w : BoltDB) (b : Nat) (hb : b < 2 ^ 32) :
    (w.UpdatePolyHeight b true).2.GetPolyHeight = some b := by
  have h4 : (putUintLE 4 b).take 4 = putUintLE 4 b :=
    List.take_of_length_le (by rw [putUintLE_length])
  simp only [BoltDB.UpdatePolyHeight, BoltDB.update, BoltDB.put, BoltDB.GetPolyHeight,
    if_true, putUintLE_length, h4, uintLE_putUintLE]
  simpa using hb

/-! ## C10: the checkpoint store round trip -/

/-- C10. A committed `UpdateFlowHeight a` stores the 8 little-endian bytes of the 64-bit
`a` under the flow key, after which `GetFlowHeight` is `a`, and it leaves the poly key as
it was; a committed `UpdatePolyHeight b` stores the 4 little-endian bytes of the 32-bit
`b`, after which `GetPolyHeight` is `b`, and it leaves the flow key as it was; either
getter on a store without its key is 0. -/
theorem checkpoint_store_round_trip (w : BoltDB) (a b : Nat)
    (ha : a < 2 ^ 64) (hb : b < 2 ^ 32) :
    ((w.UpdateFlowHeight a true).1 = none ∧
      (w.UpdateFlowHeight a true).2.height FlowHeightKey
        = some ((List.range 8).map (fun i => a / 256 ^ i % 256)) ∧
      (w.UpdateFlowHeight a true).2.GetFlowHeight = some a ∧
      (w.UpdateFlowHeight a true).2.height PolyHeightKey = w.height PolyHeightKey) ∧
    ((w.UpdatePolyHeight b true).1 = none ∧
      (w.UpdatePolyHeight b true).2.height PolyHeightKey
        = some ((List.range 4).map (fun i => b / 256 ^ i % 256)) ∧
      (w.UpdatePolyHeight b true).2.GetPolyHeight = some b ∧
      (w.UpdatePolyHeight b true).2.height FlowHeightKey = w.height FlowHeightKey) ∧
    (w.height FlowHeightKey = none → w.GetFlowHeight = some 0) ∧
    (w.height PolyHeightKey = none → w.GetPolyHeight = some 0) := by
  refine ⟨⟨rfl, ?_, ?_, ?_⟩, ⟨rfl, ?_, ?_, ?_⟩, ?_, ?_⟩
  · simp [BoltDB.UpdateFlowHeight, BoltDB.update, BoltDB.put, putUintLE_eq_map]
  · exact getFlowHeight_update w a ha
  · simp [BoltDB.UpdateFlowHeight, BoltDB.update, BoltDB.put, keys_ne]
  · simp [BoltDB.UpdatePolyHeight, BoltDB.update, BoltDB.put, putUintLE_eq_map]
  · exact getPolyHeight_update w b hb
  · simp [BoltDB.UpdatePolyHeight, BoltDB.update, BoltDB.put, keys_ne.symm]
  · intro h; simp [BoltDB.GetFlowHeight, h]
  · intro h; simp [BoltDB.GetPolyHeight, h]

/-- C10 at `a = 103`, `b = 50` on the empty store. -/
theorem checkpoint_store_round_trip_witness :
    (103 < 2 ^ 64 ∧ 50 < 2 ^ 32) ∧
    (BoltDB.empty.UpdateFlowHeight 103 true).2.GetFlowHeight = some 103 ∧
    (BoltDB.empty.UpdatePolyHeight 50 true).2.GetPolyHeight = some 50 :=
  ⟨⟨by decide, by decide⟩,
    (checkpoint_store_round_trip BoltDB.empty 103 50 (by decide) (by decide)).1.2.2.1,
    (checkpoint_store_round_trip BoltDB.empty 103 50 (by decide) (by decide)).2.1.2.2.1⟩

/-! ## Lemmas: replaying a log -/

theorem replay_append (c : Nat) (l₁ l₂ : List Action) :
    replay c (l₁ ++ l₂) = (replay c l₁).bind fun c' => replay c' l₂ := by
  induction l₁ generalizing c with
  | nil => simp [replay]
  | cons a l ih =>
    cases a with
    | handle h ok => by_cases hc : h = c <;> simp [replay, hc, ih]
    | update h ok => by_cases hc : h = c <;> simp [replay, hc, ih]

theorem replay_le {c c' : Nat} {log : List Action} (h : replay c log = some c') : c ≤ c' := by
  induction log generalizing c with
  | nil => simp [replay] at h; omega
  | cons a l ih =>
    cases a with
    | handle h' ok =>
      by_cases hc : h' = c
      · simp only [replay, hc, if_true] at h
        have := ih h
        split at this <;> omega
      · simp [replay, hc] at h
    | update h' ok =>
      by_cases hc : h' = c
      · simp only [replay, hc, if_true] at h
        exact ih h
      · simp [replay, hc] at h

theorem replay_handled {c c' : Nat} {log : List Action} (h : replay c log = some c') :
    handled log = List.range' c (c' - c) := by
  induction log generalizing c with
  | nil =>
    simp only [replay, Option.some.injEq] at h
    simp [handled, h]
  | cons a l ih =>
    cases a with
    | handle h' ok =>
      by_cases hc : h' = c
      · simp only [replay, hc, if_true] at h
        cases ok with
        | true =>
          have hle := replay_le h
          have := ih h
          simp only [if_true] at this hle
          have e : c' - c = (c' - (c + 1)) + 1 := by omega
          rw [e, List.range'_succ]
          simpa [handled, hc] using this
        | false =>
          have := ih h
          simpa [handled] using this
      · simp [replay, hc] at h
    | update h' ok =>
      by_cases hc : h' = c
      · simp only [replay, hc, if_true] at h
        simpa [handled] using ih h
      · simp [replay, hc] at h

theorem replay_head {c c' : Nat} {log : List Action} (h : replay c log = some c') :
    ∀ x ∈ (handlerCalls log).head?, x.1 = c := by
  induction log generalizing c with
  | nil => simp [handlerCalls]
  | cons a l ih =>
    cases a with
    | handle h' ok =>
      by_cases hc : h' = c
      · simp [handlerCalls, hc]
      · simp [replay, hc] at h
    | update h' ok =>
      by_cases hc : h' = c
      · simp only [replay, hc, if_true] at h
        simpa [handlerCalls] using ih h
      · simp [replay, hc] at h

theorem replay_chain {c c' : Nat} {log : List Action} (h : replay c log = some c') :
    List.Chain' (fun a b : Nat × Bool => b.1 = if a.2 then a.1 + 1 else a.1)
      (handlerCalls log) := by
  induction log generalizing c with
  | nil => simp [handlerCalls]
  | cons a l ih =>
    cases a with
    | handle h' ok =>
      by_cases hc : h' = c
      · simp only [replay, hc, if_true] at h
        have hh := replay_head h
        have ht := ih h
        have e : handlerCalls (Action.handle h' ok :: l) = (c, ok) :: handlerCalls l := by
          simp [handlerCalls, hc]
        rw [e, List.chain'_cons']
        exact ⟨fun y hy => hh y hy, ht⟩
      · simp [replay, hc] at h
    | update h' ok =>
      by_cases hc : h' = c
      · simp only [replay, hc, if_true] at h
        simpa [handlerCalls] using ih h
      · simp [replay, hc] at h

theorem replay_update {c c' : Nat} {pre post : List Action} {v : Nat} {ok : Bool}
    (h : replay c (pre ++ Action.update v ok :: post) = some c') : replay c pre = some v := by
  rw [replay_append] at h
  cases hp : replay c pre with
  | none => simp [hp] at h
  | some d =>
    simp only [hp, Option.some_bind] at h
    by_cases hv : v = d
    · rw [hv]
    · simp [replay, hv] at h

theorem inOrder_of_replay {n : Nat} {m : Monitor} (h : replay n m.log = some m.nextHeight) :
    InOrder n m :=
  ⟨replay_head h, replay_chain h, ⟨replay_le h, replay_handled h⟩, fun _ _ _ _ e =>
    have hp := replay_update (e ▸ h)
    ⟨replay_le hp, replay_handled hp⟩⟩

/-! ## Lemmas: the per-height loop -/

theorem heightLoop_replay (W bound : Nat) (hb : bound < W) (obs : List LoopObs) (n : Nat) :
    replay n (heightLoop W bound obs n).acts = some (heightLoop W bound obs n).nextHeight := by
  induction obs generalizing n with
  | nil => unfold heightLoop; split <;> simp [replay]
  | cons o obs ih =>
    unfold heightLoop
    by_cases hn : n < bound
    · simp only [hn, if_true]
      cases o with
      | done => simp [replay]
      | handled err =>
        cases err with
        | none =>
          have e : (n + 1) % W = n + 1 := Nat.mod_eq_of_lt (by omega)
          simp [LoopEnd.cons, replay, e, ih]
        | some e => simp [LoopEnd.cons, replay, ih]
    · simp [hn, replay]

theorem heightLoop_lt (W bound : Nat) (obs : List LoopObs) (n : Nat)
    (hn : n < W) : (heightLoop W bound obs n).nextHeight < W := by
  induction obs generalizing n with
  | nil => unfold heightLoop; split <;> simpa using hn
  | cons o obs ih =>
    unfold heightLoop
    by_cases hlt : n < bound
    · simp only [hlt, if_true]
      cases o with
      | done => simpa using hn
      | handled err =>
        cases err with
        | none => simpa [LoopEnd.cons] using ih _ (Nat.mod_lt _ (by omega))
        | some e => simpa [LoopEnd.cons] using ih _ hn
    · simpa [hlt] using hn

theorem heightLoop_handled (W bound : Nat) (obs : List LoopObs) (n : Nat) (hn : n < bound) :
    heightLoop W bound (LoopObs.handled none :: obs) n
      = (heightLoop W bound obs ((n + 1) % W)).cons (Action.handle n true) := by
  simp [heightLoop, hn]

theorem heightLoop_drain (W bound : Nat) (hb : bound < W) (rest : List LoopObs) (k n : Nat)
    (hk : n + k = bound) :
    heightLoop W bound (List.replicate k (LoopObs.handled none) ++ rest) n
      = ⟨.finished, bound, (List.range' n k).map fun h => Action.handle h true⟩ := by
  induction k generalizing n with
  | zero =>
    have : ¬ n < bound := by omega
    have e : n = bound := by omega
    cases rest <;> simp [heightLoop, this, e]
  | succ k ih =>
    have hn : n < bound := by omega
    have e : (n + 1) % W = n + 1 := Nat.mod_eq_of_lt (by omega)
    rw [List.replicate_succ, List.cons_append, heightLoop_handled W bound _ n hn, e,
      ih (n + 1) (by omega), List.range'_succ, List.map_cons]
    rfl

theorem heightLoop_done (W bound : Nat) (obs : List LoopObs) (n : Nat) (hn : n < bound) :
    heightLoop W bound (LoopObs.done :: obs) n = ⟨.returned, n, []⟩ := by
  simp [heightLoop, hn]

theorem heightLoop_failed (W bound : Nat) (obs : List LoopObs) (n : Nat) (e : String)
    (hn : n < bound) :
    heightLoop W bound (LoopObs.handled (some e) :: obs) n
      = (heightLoop W bound obs n).cons (Action.handle n false) := by
  simp [heightLoop, hn]

/-! ## Lemmas: the monitors keep their handler calls in order -/

theorem monitorFlowStep_replay (n : Nat) (m : Monitor) (ev : Event)
    (h : replay n m.log = some m.nextHeight) :
    replay n (monitorFlowStep m ev).log = some (monitorFlowStep m ev).nextHeight := by
  unfold monitorFlowStep
  split
  · cases ev with
    | done => exact h
    | tick header obs commits =>
      simp only [monitorFlowTick]
      cases header with
      | error e => exact h
      | ok height =>
        simp only
        split
        · exact h
        · have hr := heightLoop_replay (2 ^ 64)
            ((height + 2 ^ 64 - FLOW_USEFUL_BLOCK_NUM) % 2 ^ 64)
            (Nat.mod_lt _ (by norm_num)) obs m.nextHeight
          split <;> rename_i heq <;> rw [heq] at hr <;> simp only at hr
          · simp [replay_append, h, hr]
          · simp [replay_append, h, hr]
          · simp [replay_append, h, hr, replay]
  · exact h

theorem monitorPolyStep_replay (n : Nat) (m : Monitor) (ev : Event)
    (h : replay n m.log = some m.nextHeight) :
    replay n (monitorPolyStep m ev).log = some (monitorPolyStep m ev).nextHeight := by
  unfold monitorPolyStep
  split
  · cases ev with
    | done => exact h
    | tick header obs commits =>
      simp only [monitorPolyTick]
      cases header with
      | error e => exact h
      | ok height =>
        simp only
        split
        · exact h
        · have hr := heightLoop_replay (2 ^ 32)
            (((height + 2 ^ 32 - 1) % 2 ^ 32 + 2 ^ 32 - ONT_USEFUL_BLOCK_NUM) % 2 ^ 32)
            (Nat.mod_lt _ (by norm_num)) obs m.nextHeight
          split <;> rename_i heq <;> rw [heq] at hr <;> simp only at hr
          · simp [replay_append, h, hr]
          · simp [replay_append, h, hr]
          · simp [replay_append, h, hr, replay]
  · exact h

theorem foldl_replay (step : Monitor → Event → Monitor)
    (hstep : ∀ n m ev, replay n m.log = some m.nextHeight →
      replay n (step m ev).log = some (step m ev).nextHeight)
    (n : Nat) (evs : List Event) (m : Monitor) (h : replay n m.log = some m.nextHeight) :
    replay n (evs.foldl step m).log = some (evs.foldl step m).nextHeight := by
  induction evs generalizing m with
  | nil => exact h
  | cons ev evs ih => exact ih _ (hstep n m ev h)

/-! ## C2: no height is skipped -/

/-- C2. In both monitors, for every sequence of observations (ticks, cancellations, handler
outcomes, write outcomes), the handler calls go height by height from the start height:
after a failure the next call is for the same height, after a success for the next one,
so `nextHeight` moves by one only past a height handled with success, and the heights
handled with success before any checkpoint write of `v` are exactly `n, …, v-1`, in
increasing order, each once. -/
theorem never_past_a_failed_height (n : Nat) (bdb : BoltDB) (evs : List Event) :
    InOrder n (monitorFlow n bdb evs) ∧ InOrder n (monitorPoly n bdb evs) :=
  ⟨inOrder_of_replay (foldl_replay monitorFlowStep monitorFlowStep_replay n evs _ rfl),
    inOrder_of_replay (foldl_replay monitorPolyStep monitorPolyStep_replay n evs _ rfl)⟩


/-! ## C1: one tick of the source-chain monitor -/

/-- C1. One tick of `monitorFlow` with lag 3, without 64-bit overflow (`n + 3 < 2 ^ 64`,
`L < 2 ^ 64`) and with no cancellation seen: when the reported height `L` is at least
`n + 3` and every handler call succeeds, the handler is called for `n, n+1, …, L-4`, once
each and in this order, then `L - 3` is written to the checkpoint store (and is what the
store holds when the write commits) and is the new `nextHeight`; when `L < n + 3` the tick
changes nothing: no handler call, no write. -/
theorem monitorFlow_tick (m : Monitor) (L : Nat) (rest obs : List LoopObs) (commits : Bool)
    (hn : m.nextHeight + 3 < 2 ^ 64) (hL : L < 2 ^ 64) :
    (m.nextHeight + 3 ≤ L →
      let m' := monitorFlowTick m (.ok L)
        (List.replicate (L - 3 - m.nextHeight) (LoopObs.handled none) ++ rest) commits
      m'.log = m.log
          ++ (List.range' m.nextHeight (L - 3 - m.nextHeight)).map (fun h => Action.handle h true)
          ++ [Action.update (L - 3) commits] ∧
        m'.nextHeight = L - 3 ∧ m'.status = m.status ∧
        m'.bdb = (m.bdb.UpdateFlowHeight (L - 3) commits).2 ∧
        (commits = true → m'.bdb.GetFlowHeight = some (L - 3))) ∧
    (L < m.nextHeight + 3 → monitorFlowTick m (.ok L) obs commits = m) := by
  have e1 : (m.nextHeight + FLOW_USEFUL_BLOCK_NUM) % 2 ^ 64 = m.nextHeight + 3 :=
    Nat.mod_eq_of_lt hn
  constructor
  · intro hle
    have e2 : (L + 2 ^ 64 - FLOW_USEFUL_BLOCK_NUM) % 2 ^ 64 = L - 3 := by
      simp only [FLOW_USEFUL_BLOCK_NUM]; omega
    have hd := heightLoop_drain (2 ^ 64) (L - 3) (by omega) rest (L - 3 - m.nextHeight)
      m.nextHeight (by omega)
    have hg : ¬ L < m.nextHeight + 3 := by omega
    simp only [monitorFlowTick, e1, e2, hg, if_false, hd, true_and]
    intro hc
    subst hc
    exact getFlowHeight_update m.bdb (L - 3) (by omega)
  · intro hlt
    simp only [monitorFlowTick, e1, hlt, if_true]

/-- C1 at `nextHeight = 100` and latest height `106`: heights 100, 101, 102 are handled
and 103 is stored. -/
theorem monitorFlow_tick_witness :
    ((Monitor.start 100 BoltDB.empty).nextHeight + 3 < 2 ^ 64 ∧ 106 < 2 ^ 64) ∧
    (monitorFlowTick (Monitor.start 100 BoltDB.empty) (.ok 106)
      (List.replicate 3 (LoopObs.handled none) ++ []) true).log
      = [Action.handle 100 true, Action.handle 101 true, Action.handle 102 true,
          Action.update 103 true] ∧
    (monitorFlowTick (Monitor.start 100 BoltDB.empty) (.ok 106)
      (List.replicate 3 (LoopObs.handled none) ++ []) true).bdb.GetFlowHeight = some 103 :=
  ⟨⟨by decide, by decide⟩,
    ((monitorFlow_tick (Monitor.start 100 BoltDB.empty) 106 [] [] true (by decide)
      (by decide)).1 (by decide)).1,
    ((monitorFlow_tick (Monitor.start 100 BoltDB.empty) 106 [] [] true (by decide)
      (by decide)).1 (by decide)).2.2.2.2 rfl⟩

/-! ## Lemmas: the checkpoint during a run -/

theorem heightLoop_ge (W bound : Nat) (hb : bound < W) (obs : List LoopObs) (n : Nat) :
    n ≤ (heightLoop W bound obs n).nextHeight :=
  replay_le (heightLoop_replay W bound hb obs n)

theorem getFlowHeight_write (w : BoltDB) (a c : Nat) (commits : Bool) (ha : a < 2 ^ 64)
    (hc : w.GetFlowHeight = some c) (hle : c ≤ a) :
    ∃ c', (w.UpdateFlowHeight a commits).2.GetFlowHeight = some c' ∧ c ≤ c' ∧ c' ≤ a := by
  cases commits with
  | true => exact ⟨a, getFlowHeight_update w a ha, hle, le_refl a⟩
  | false => exact ⟨c, by simpa [BoltDB.UpdateFlowHeight, BoltDB.update] using hc, le_refl c, hle⟩

theorem getPolyHeight_write (w : BoltDB) (a c : Nat) (commits : Bool) (ha : a < 2 ^ 32)
    (hc : w.GetPolyHeight = some c) (hle : c ≤ a) :
    ∃ c', (w.UpdatePolyHeight a commits).2.GetPolyHeight = some c' ∧ c ≤ c' ∧ c' ≤ a := by
  cases commits with
  | true => exact ⟨a, getPolyHeight_update w a ha, hle, le_refl a⟩
  | false => exact ⟨c, by simpa [BoltDB.UpdatePolyHeight, BoltDB.update] using hc, le_refl c, hle⟩

theorem monitorFlowStep_checkpoint (m : Monitor) (ev : Event) (c : Nat)
    (hc : m.bdb.GetFlowHeight = some c) (hle : c ≤ m.nextHeight) (hlt : m.nextHeight < 2 ^ 64) :
    ∃ c', (monitorFlowStep m ev).bdb.GetFlowHeight = some c' ∧ c ≤ c' ∧
      c' ≤ (monitorFlowStep m ev).nextHeight ∧ (monitorFlowStep m ev).nextHeight < 2 ^ 64 := by
  unfold monitorFlowStep
  split
  · cases ev with
    | done => exact ⟨c, hc, le_refl c, hle, hlt⟩
    | tick header obs commits =>
      simp only [monitorFlowTick]
      cases header with
      | error e => exact ⟨c, hc, le_refl c, hle, hlt⟩
      | ok height =>
        simp only
        split
        · exact ⟨c, hc, le_refl c, hle, hlt⟩
        · have hb : (height + 2 ^ 64 - FLOW_USEFUL_BLOCK_NUM) % 2 ^ 64 < 2 ^ 64 :=
            Nat.mod_lt _ (by norm_num)
          have hge := heightLoop_ge (2 ^ 64) _ hb obs m.nextHeight
          have hw := heightLoop_lt (2 ^ 64)
            ((height + 2 ^ 64 - FLOW_USEFUL_BLOCK_NUM) % 2 ^ 64) obs m.nextHeight hlt
          split <;> rename_i heq <;> rw [heq] at hge hw <;> simp only at hge hw ⊢
          · exact ⟨c, hc, le_refl c, by omega, hw⟩
          · exact ⟨c, hc, le_refl c, by omega, hw⟩
          · obtain ⟨c', h1, h2, h3⟩ := getFlowHeight_write m.bdb _ c commits hw hc (by omega)
            exact ⟨c', h1, h2, h3, hw⟩
  · exact ⟨c, hc, le_refl c, hle, hlt⟩

theorem monitorPolyStep_checkpoint (m : Monitor) (ev : Event) (c : Nat)
    (hc : m.bdb.GetPolyHeight = some c) (hle : c ≤ m.nextHeight) (hlt : m.nextHeight < 2 ^ 32) :
    ∃ c', (monitorPolyStep m ev).bdb.GetPolyHeight = some c' ∧ c ≤ c' ∧
      c' ≤ (monitorPolyStep m ev).nextHeight ∧ (monitorPolyStep m ev).nextHeight < 2 ^ 32 := by
  unfold monitorPolyStep
  split
  · cases ev with
    | done => exact ⟨c, hc, le_refl c, hle, hlt⟩
    | tick header obs commits =>
      simp only [monitorPolyTick]
      cases header with
      | error e => exact ⟨c, hc, le_refl c, hle, hlt⟩
      | ok height =>
        simp only
        split
        · exact ⟨c, hc, le_refl c, hle, hlt⟩
        · have hb : ((height + 2 ^ 32 - 1) % 2 ^ 32 + 2 ^ 32 - ONT_USEFUL_BLOCK_NUM) % 2 ^ 32
              < 2 ^ 32 := Nat.mod_lt _ (by norm_num)
          have hge := heightLoop_ge (2 ^ 32) _ hb obs m.nextHeight
          have hw := heightLoop_lt (2 ^ 32)
            (((height + 2 ^ 32 - 1) % 2 ^ 32 + 2 ^ 32 - ONT_USEFUL_BLOCK_NUM) % 2 ^ 32) obs
            m.nextHeight hlt
          split <;> rename_i heq <;> rw [heq] at hge hw <;> simp only at hge hw ⊢
          · exact ⟨c, hc, le_refl c, by omega, hw⟩
          · exact ⟨c, hc, le_refl c, by omega, hw⟩
          · obtain ⟨c', h1, h2, h3⟩ := getPolyHeight_write m.bdb _ c commits hw hc (by omega)
            exact ⟨c', h1, h2, h3, hw⟩
  · exact ⟨c, hc, le_refl c, hle, hlt⟩

theorem foldl_checkpoint (step : Monitor → Event → Monitor) (get : BoltDB → Option Nat)
    (W : Nat)
    (hstep : ∀ m ev c, get m.bdb = some c → c ≤ m.nextHeight → m.nextHeight < W →
      ∃ c', get (step m ev).bdb = some c' ∧ c ≤ c' ∧ c' ≤ (step m ev).nextHeight ∧
        (step m ev).nextHeight < W)
    (evs : List Event) (m : Monitor) (c : Nat)
    (hc : get m.bdb = some c) (hle : c ≤ m.nextHeight) (hlt : m.nextHeight < W) :
    ∃ c', get (evs.foldl step m).bdb = some c' ∧ c ≤ c' ∧
      c' ≤ (evs.foldl step m).nextHeight ∧ (evs.foldl step m).nextHeight < W := by
  induction evs generalizing m c with
  | nil => exact ⟨c, hc, le_refl c, hle, hlt⟩
  | cons ev evs ih =>
    obtain ⟨c1, h1, h2, h3, h4⟩ := hstep m ev c hc hle hlt
    obtain ⟨c2, k1, k2, k3, k4⟩ := ih (step m ev) c1 h1 h3 h4
    exact ⟨c2, k1, by omega, k3, k4⟩

theorem getFlowStartHeight_stored {bdb : BoltDB} {latest : Except String Nat} {start : Nat}
    (h : getFlowStartHeight 0 bdb latest = some start) :
    ∃ c, bdb.GetFlowHeight = some c ∧ c ≤ start := by
  unfold getFlowStartHeight at h
  cases hg : bdb.GetFlowHeight with
  | none => simp [hg] at h
  | some s =>
    simp only [hg, gt_iff_lt, lt_self_iff_false, if_false] at h
    by_cases hs : 0 < s
    · simp only [hs, if_true, Option.some.injEq] at h
      exact ⟨s, rfl, by omega⟩
    · exact ⟨s, rfl, by omega⟩

theorem getPolyStartHeight_stored {bdb : BoltDB} {latest : Except String Nat} {start : Nat}
    (h : getPolyStartHeight 0 bdb latest = some start) :
    ∃ c, bdb.GetPolyHeight = some c ∧ c ≤ start := by
  unfold getPolyStartHeight at h
  cases hg : bdb.GetPolyHeight with
  | none => simp [hg] at h
  | some s =>
    simp only [hg, gt_iff_lt, lt_self_iff_false, if_false] at h
    by_cases hs : 0 < s
    · simp only [hs, if_true, Option.some.injEq] at h
      exact ⟨s, rfl, by omega⟩
    · exact ⟨s, rfl, by omega⟩

theorem mem_handled_of_replay {n c : Nat} {log : List Action} (h : replay n log = some c)
    (x : Nat) (h1 : n ≤ x) (h2 : x < c) : x ∈ handled log := by
  rw [replay_handled h, List.mem_range'_1]
  omega

/-! ## C3: the persisted checkpoint over a run -/

/-- C3, as stated, fails. With the checkpoint 100 in the store and the forced start
height 50, `getFlowStartHeight` is 50; one tick at latest height 54 handles height 50
alone and writes 51: the persisted checkpoint went down from 100 to 51, and 51 is above
50, the highest height handled. -/
theorem checkpoint_can_decrease :
    (BoltDB.empty.UpdateFlowHeight 100 true).2.GetFlowHeight = some 100 ∧
    getFlowStartHeight 50 (BoltDB.empty.UpdateFlowHeight 100 true).2 (.ok 0) = some 50 ∧
    (monitorFlow 50 (BoltDB.empty.UpdateFlowHeight 100 true).2
      [.tick (.ok 54) [.handled none] true]).bdb.GetFlowHeight = some 51 ∧
    handled (monitorFlow 50 (BoltDB.empty.UpdateFlowHeight 100 true).2
      [.tick (.ok 54) [.handled none] true]).log = [50] ∧
    ¬ (100 ≤ 51) ∧ ¬ (51 ≤ 50) := by
  decide

/-- C3, amended. When no start height is forced, for every sequence of observations of
a monitor (any reported heights, handler outcomes, cancellations and write outcomes) the
persisted checkpoint never decreases from one point of the run to a later one, and every
height from the start height up to, and not including, the persisted checkpoint has been
handled with success: the checkpoint is at most one above the highest height handled.
This holds for `monitorFlow` with the flow key and for `monitorPoly` with the poly key. -/
theorem checkpoint_monotone (bdb : BoltDB) (latest : Except String Nat) (start : Nat)
    (evs evs' : List Event) :
    (getFlowStartHeight 0 bdb latest = some start → start < 2 ^ 64 →
      ∃ c c', (monitorFlow start bdb evs).bdb.GetFlowHeight = some c ∧
        (monitorFlow start bdb (evs ++ evs')).bdb.GetFlowHeight = some c' ∧ c ≤ c' ∧
        ∀ h, start ≤ h → h < c' → h ∈ handled (monitorFlow start bdb (evs ++ evs')).log) ∧
    (getPolyStartHeight 0 bdb latest = some start → start < 2 ^ 32 →
      ∃ c c', (monitorPoly start bdb evs).bdb.GetPolyHeight = some c ∧
        (monitorPoly start bdb (evs ++ evs')).bdb.GetPolyHeight = some c' ∧ c ≤ c' ∧
        ∀ h, start ≤ h → h < c' → h ∈ handled (monitorPoly start bdb (evs ++ evs')).log) := by
  constructor
  · intro hs hlt
    obtain ⟨c0, h0, hle0⟩ := getFlowStartHeight_stored hs
    obtain ⟨c, h1, _, h3, h4⟩ := foldl_checkpoint monitorFlowStep BoltDB.GetFlowHeight (2 ^ 64)
      monitorFlowStep_checkpoint evs (Monitor.start start bdb) c0 h0 hle0 hlt
    obtain ⟨c', k1, k2, k3, _⟩ := foldl_checkpoint monitorFlowStep BoltDB.GetFlowHeight
      (2 ^ 64) monitorFlowStep_checkpoint evs' _ c h1 h3 h4
    have hr := foldl_replay monitorFlowStep monitorFlowStep_replay start (evs ++ evs')
      (Monitor.start start bdb) rfl
    refine ⟨c, c', h1, ?_, k2, ?_⟩
    · simpa [monitorFlow, List.foldl_append] using k1
    · intro h hge hlt'
      refine mem_handled_of_replay hr h hge ?_
      have : c' ≤ (List.foldl monitorFlowStep (Monitor.start start bdb) (evs ++ evs')).nextHeight := by
        simpa [List.foldl_append] using k3
      omega
  · intro hs hlt
    obtain ⟨c0, h0, hle0⟩ := getPolyStartHeight_stored hs
    obtain ⟨c, h1, _, h3, h4⟩ := foldl_checkpoint monitorPolyStep BoltDB.GetPolyHeight (2 ^ 32)
      monitorPolyStep_checkpoint evs (Monitor.start start bdb) c0 h0 hle0 hlt
    obtain ⟨c', k1, k2, k3, _⟩ := foldl_checkpoint monitorPolyStep BoltDB.GetPolyHeight
      (2 ^ 32) monitorPolyStep_checkpoint evs' _ c h1 h3 h4
    have hr := foldl_replay monitorPolyStep monitorPolyStep_replay start (evs ++ evs')
      (Monitor.start start bdb) rfl
    refine ⟨c, c', h1, ?_, k2, ?_⟩
    · simpa [monitorPoly, List.foldl_append] using k1
    · intro h hge hlt'
      refine mem_handled_of_replay hr h hge ?_
      have : c' ≤ (List.foldl monitorPolyStep (Monitor.start start bdb) (evs ++ evs')).nextHeight := by
        simpa [List.foldl_append] using k3
      omega

/-- C3, amended, on a store holding 100 under both keys: one tick reporting height 104
with one successful handler call, then a tick reporting 107 with a failed call, a
successful one and a write that does not commit. -/
theorem checkpoint_monotone_witness :
    ((getFlowStartHeight 0 BoltDB.both100 (.ok 0) = some 100 ∧ 100 < 2 ^ 64) ∧
      ∃ c c', (monitorFlow 100 BoltDB.both100
          [.tick (.ok 104) [.handled none] true]).bdb.GetFlowHeight = some c ∧
        (monitorFlow 100 BoltDB.both100
          ([.tick (.ok 104) [.handled none] true]
            ++ [.tick (.ok 107) [.handled (some "rpc"), .handled none] false])).bdb.GetFlowHeight = some c' ∧ c ≤ c' ∧
        ∀ h, 100 ≤ h → h < c' → h ∈ handled (monitorFlow 100 BoltDB.both100
          ([.tick (.ok 104) [.handled none] true]
            ++ [.tick (.ok 107) [.handled (some "rpc"), .handled none] false])).log) ∧
    ((getPolyStartHeight 0 BoltDB.both100 (.ok 0) = some 100 ∧ 100 < 2 ^ 32) ∧
      ∃ c c', (monitorPoly 100 BoltDB.both100
          [.tick (.ok 104) [.handled none] true]).bdb.GetPolyHeight = some c ∧
        (monitorPoly 100 BoltDB.both100
          ([.tick (.ok 104) [.handled none] true]
            ++ [.tick (.ok 107) [.handled (some "rpc"), .handled none] false])).bdb.GetPolyHeight = some c' ∧ c ≤ c' ∧
        ∀ h, 100 ≤ h → h < c' → h ∈ handled (monitorPoly 100 BoltDB.both100
          ([.tick (.ok 104) [.handled none] true]
            ++ [.tick (.ok 107) [.handled (some "rpc"), .handled none] false])).log) :=
  ⟨⟨⟨by decide, by decide⟩,
      (checkpoint_monotone BoltDB.both100 (.ok 0) 100 [.tick (.ok 104) [.handled none] true]
        [.tick (.ok 107) [.handled (some "rpc"), .handled none] false]).1 (by decide) (by decide)⟩,
    ⟨⟨by decide, by decide⟩,
      (checkpoint_monotone BoltDB.both100 (.ok 0) 100 [.tick (.ok 104) [.handled none] true]
        [.tick (.ok 107) [.handled (some "rpc"), .handled none] false]).2 (by decide) (by decide)⟩⟩

/-! ## C9: cancellation -/

theorem foldl_stopped (step : Monitor → Event → Monitor)
    (hstep : ∀ m ev, m.status ≠ .running → step m ev = m)
    (evs : List Event) (m : Monitor) (h : m.status ≠ .running) : evs.foldl step m = m := by
  induction evs with
  | nil => rfl
  | cons ev evs ih => rw [List.foldl_cons, hstep m ev h, ih]

theorem monitorFlowStep_stopped (m : Monitor) (ev : Event) (h : m.status ≠ .running) :
    monitorFlowStep m ev = m := by
  unfold monitorFlowStep
  split
  · rename_i hs; exact absurd hs h
  · rfl

theorem monitorPolyStep_stopped (m : Monitor) (ev : Event) (h : m.status ≠ .running) :
    monitorPolyStep m ev = m := by
  unfold monitorPolyStep
  split
  · rename_i hs; exact absurd hs h
  · rfl

/-- The part of C9 that holds. `monitorFlow`, seeing the cancellation at its outer
`select`, returns, and whatever it observes afterwards it calls no handler and writes no
checkpoint; and in both monitors a cancellation seen before a height inside the
per-height loop makes the tick return without a handler call or a write. -/
theorem cancellation_honoured (m : Monitor) (evs : List Event) (h : m.status = .running) :
    (evs.foldl monitorFlowStep (monitorFlowStep m .done) = { m with status := .returned }) ∧
    (∀ W bound obs, m.nextHeight < bound →
      heightLoop W bound (.done :: obs) m.nextHeight = ⟨.returned, m.nextHeight, []⟩) := by
  constructor
  · have e : monitorFlowStep m .done = { m with status := .returned } := by
      simp [monitorFlowStep, h]
    rw [e]
    exact foldl_stopped monitorFlowStep monitorFlowStep_stopped evs _ (by simp)
  · intro W bound obs hn
    exact heightLoop_done W bound obs m.nextHeight hn

/-- C9 fails for `monitorPoly`. Started at height 10 on an empty store, it sees the
cancellation at its outer `select` and is still running; the tick that follows (current
height 12, nothing to handle) writes the checkpoint 10. `monitorFlow` on the same
observations has returned and written nothing. -/
theorem monitorPoly_survives_cancellation :
    (monitorPoly 10 BoltDB.empty [.done]).status = .running ∧
    (monitorPoly 10 BoltDB.empty [.done, .tick (.ok 12) [] true]).log
      = [Action.update 10 true] ∧
    BoltDB.empty.GetPolyHeight = some 0 ∧
    (monitorPoly 10 BoltDB.empty [.done, .tick (.ok 12) [] true]).bdb.GetPolyHeight
      = some 10 ∧
    (monitorFlow 10 BoltDB.empty [.done, .tick (.ok 13) [] true]).status = .returned ∧
    (monitorFlow 10 BoltDB.empty [.done, .tick (.ok 13) [] true]).log = [] := by
  decide

/-! ## Lemmas: the reader -/

theorem slice_append (a b c : List Nat) :
    ((a ++ (b ++ c)).take (a.length + b.length)).drop a.length = b := by
  rw [List.take_append, List.take_left, List.drop_left]

theorem nextByte_at (a : List Nat) (b : Nat) (c : List Nat) :
    ZeroCopySource.NextByte ⟨a ++ b :: c, a.length⟩ = (b, false, ⟨a ++ b :: c, a.length + 1⟩) := by
  have e : (a ++ b :: c).getD a.length 0 = b := by
    rw [List.getD_eq_getElem?_getD, List.getElem?_append_right (le_refl _)]
    simp
  unfold ZeroCopySource.NextByte
  simp only
  rw [if_neg (by simp), e]

theorem nextBytes_at (a b c : List Nat) (h : a.length + b.length < 2 ^ 64) :
    ZeroCopySource.NextBytes ⟨a ++ (b ++ c), a.length⟩ b.length
      = (b, false, ⟨a ++ (b ++ c), a.length + b.length⟩) := by
  have h1 : ¬ (2 ^ 64 ≤ a.length + b.length) := by omega
  have h2 : ¬ ((a ++ (b ++ c)).length < a.length + b.length) := by
    simp only [List.length_append]; omega
  simp only [ZeroCopySource.NextBytes, h1, h2, or_self, if_false, slice_append]

theorem nextBytes_eof (z : ZeroCopySource) (n : Nat)
    (h : 2 ^ 64 ≤ z.off + n ∨ z.s.length < z.off + n) : (z.NextBytes n).2.1 = true := by
  unfold ZeroCopySource.NextBytes
  simp only
  rw [if_pos h]

theorem nextUint_at (a : List Nat) (w n : Nat) (c : List Nat) (h : a.length + w < 2 ^ 64) :
    ZeroCopySource.NextUint ⟨a ++ (putUintLE w n ++ c), a.length⟩ w
      = (n % 256 ^ w, false, ⟨a ++ (putUintLE w n ++ c), a.length + w⟩) := by
  have hb := nextBytes_at a (putUintLE w n) c (by rw [putUintLE_length]; exact h)
  rw [putUintLE_length] at hb
  simp only [ZeroCopySource.NextUint, hb, uintLE_putUintLE]
  rfl

theorem varUint_length_le (n : Nat) : (varUint n).length ≤ 9 := by
  unfold varUint
  split_ifs <;> simp [putUintLE_length]

theorem nextVarUint_at (n : Nat) (c : List Nat) (hn : n < 2 ^ 64) :
    ZeroCopySource.NextVarUint ⟨varUint n ++ c, 0⟩
      = (n, false, ⟨varUint n ++ c, (varUint n).length⟩) := by
  unfold varUint
  by_cases h1 : n < 0xFD
  · have hb := nextByte_at [] n c
    simp only [List.nil_append, List.length_nil, Nat.zero_add] at hb
    have e1 : n ≠ 0xFD := by omega
    have e2 : n ≠ 0xFE := by omega
    have e3 : n ≠ 0xFF := by omega
    simp [h1, ZeroCopySource.NextVarUint, hb, e1, e2, e3]
  · by_cases h2 : n ≤ 0xFFFF
    · have hb := nextByte_at [] 0xFD (putUintLE 2 n ++ c)
      have hu := nextUint_at [0xFD] 2 n c (by simp)
      simp only [List.nil_append, List.length_nil, Nat.zero_add] at hb
      simp only [List.singleton_append, List.length_singleton] at hu
      have e : n % 256 ^ 2 = n := Nat.mod_eq_of_lt (by omega)
      simp only [h1, h2, if_false, if_true, ZeroCopySource.NextVarUint, hb, hu, e,
        List.cons_append, List.length_cons, putUintLE_length]
      simp
    · by_cases h3 : n ≤ 0xFFFFFFFF
      · have hb := nextByte_at [] 0xFE (putUintLE 4 n ++ c)
        have hu := nextUint_at [0xFE] 4 n c (by simp)
        simp only [List.nil_append, List.length_nil, Nat.zero_add] at hb
        simp only [List.singleton_append, List.length_singleton] at hu
        have e : n % 256 ^ 4 = n := Nat.mod_eq_of_lt (by omega)
        simp only [h1, h2, h3, if_false, if_true, ZeroCopySource.NextVarUint, hb, hu, e,
          List.cons_append, List.length_cons, putUintLE_length]
        simp
      · have hb := nextByte_at [] 0xFF (putUintLE 8 n ++ c)
        have hu := nextUint_at [0xFF] 8 n c (by simp)
        simp only [List.nil_append, List.length_nil, Nat.zero_add] at hb
        simp only [List.singleton_append, List.length_singleton] at hu
        have e : n % 256 ^ 8 = n := Nat.mod_eq_of_lt (by omega)
        simp only [h1, h2, h3, if_false, if_true, ZeroCopySource.NextVarUint, hb, hu, e,
          List.cons_append, List.length_cons, putUintLE_length]
        simp

theorem nextVarBytes_at (v rest : List Nat)
    (h : (varUint v.length).length + v.length < 2 ^ 64) :
    ZeroCopySource.NextVarBytes ⟨varUint v.length ++ (v ++ rest), 0⟩
      = (v, false, ⟨varUint v.length ++ (v ++ rest), (varUint v.length).length + v.length⟩) := by
  unfold ZeroCopySource.NextVarBytes
  rw [nextVarUint_at v.length (v ++ rest) (by omega)]
  simp only [Bool.false_eq_true, if_false]
  exact nextBytes_at (varUint v.length) v rest h

theorem nextVarBytes_short (v w : List Nat) (hv : v.length < 2 ^ 64) (h : w.length < v.length) :
    (ZeroCopySource.NextVarBytes ⟨varUint v.length ++ w, 0⟩).2.1 = true := by
  unfold ZeroCopySource.NextVarBytes
  rw [nextVarUint_at v.length w hv]
  simp only [Bool.false_eq_true, if_false]
  apply nextBytes_eof
  right
  simp only [List.length_append]
  omega

/-! ## Lemmas: `parseAuditpath` -/

theorem nextByte_eof (z : ZeroCopySource) (h : z.s.length ≤ z.off) :
    z.NextByte = (0, true, z) := by
  unfold ZeroCopySource.NextByte
  rw [if_pos h]

theorem nextByte_ok (z : ZeroCopySource) (h : ¬ z.s.length ≤ z.off) :
    z.NextByte = (z.s.getD z.off 0, false, ⟨z.s, z.off + 1⟩) := by
  unfold ZeroCopySource.NextByte
  rw [if_neg h]

theorem nextHash_eof (z : ZeroCopySource)
    (h : 2 ^ 64 ≤ z.off + 32 ∨ z.s.length < z.off + 32) : (z.NextHash).2.1 = true := by
  unfold ZeroCopySource.NextHash ZeroCopySource.NextBytes
  simp only [UINT256_SIZE]
  rw [if_pos h]
  rfl

theorem nextHash_ok (z : ZeroCopySource)
    (h : ¬ (2 ^ 64 ≤ z.off + 32 ∨ z.s.length < z.off + 32)) :
    z.NextHash = ((z.s.take (z.off + 32)).drop z.off, false, ⟨z.s, z.off + 32⟩) := by
  unfold ZeroCopySource.NextHash ZeroCopySource.NextBytes
  simp only [UINT256_SIZE]
  rw [if_neg h]
  rfl

theorem parseAuditpathLoop_short (n : Nat) (z : ZeroCopySource) (pos : List Nat)
    (hashs : List (List Nat)) (hoff : z.off ≤ z.s.length) (h : z.s.length < z.off + 33 * n) :
    parseAuditpathLoop n z pos hashs = none := by
  induction n generalizing z pos hashs with
  | zero => omega
  | succ n ih =>
    unfold parseAuditpathLoop
    by_cases hb : z.s.length ≤ z.off
    · rw [nextByte_eof z hb]
      rfl
    · rw [nextByte_ok z hb]
      simp only [Bool.false_eq_true, if_false]
      by_cases hh : 2 ^ 64 ≤ z.off + 1 + 32 ∨ z.s.length < z.off + 1 + 32
      · have he := nextHash_eof ⟨z.s, z.off + 1⟩ hh
        rcases hr : ZeroCopySource.NextHash ⟨z.s, z.off + 1⟩ with ⟨v, eof, z2⟩
        rw [hr] at he
        simp only at he
        simp [he]
      · rw [nextHash_ok ⟨z.s, z.off + 1⟩ hh]
        simp only [Bool.false_eq_true, if_false]
        exact ih _ _ _ (by simp only; omega) (by simp only; omega)

theorem parseAuditpathLoop_levels (levels : List (Nat × List Nat)) (pre post pos : List Nat)
    (hashs : List (List Nat)) (hh : ∀ p ∈ levels, p.2.length = 32)
    (hlen : pre.length + 33 * levels.length < 2 ^ 64) :
    parseAuditpathLoop levels.length
        ⟨pre ++ ((levels.map fun p => p.1 :: p.2).flatten ++ post), pre.length⟩ pos hashs
      = some (pos ++ levels.map (fun p => p.1), hashs ++ levels.map (fun p => p.2)) := by
  induction levels generalizing pre pos hashs with
  | nil => simp [parseAuditpathLoop]
  | cons p levels ih =>
    obtain ⟨f, h⟩ := p
    have h32 : h.length = 32 := hh (f, h) (List.mem_cons_self _ _)
    simp only [List.length_cons] at hlen
    have e0 : pre ++ ((((f, h) :: levels).map fun p => p.1 :: p.2).flatten ++ post)
        = pre ++ f :: (h ++ ((levels.map fun p => p.1 :: p.2).flatten ++ post)) := by
      simp
    have e1 : pre ++ f :: (h ++ ((levels.map fun p => p.1 :: p.2).flatten ++ post))
        = (pre ++ [f]) ++ (h ++ ((levels.map fun p => p.1 :: p.2).flatten ++ post)) := by
      simp
    have e2 : (pre ++ [f]) ++ (h ++ ((levels.map fun p => p.1 :: p.2).flatten ++ post))
        = (pre ++ f :: h) ++ ((levels.map fun p => p.1 :: p.2).flatten ++ post) := by
      simp
    have hb := nextByte_at pre f (h ++ ((levels.map fun p => p.1 :: p.2).flatten ++ post))
    have hn := nextBytes_at (pre ++ [f]) h
      ((levels.map fun p => p.1 :: p.2).flatten ++ post)
      (by simp only [List.length_append, List.length_singleton]; omega)
    rw [← e1, h32] at hn
    simp only [List.length_append, List.length_singleton] at hn
    have hi := ih (pre ++ f :: h) (pos ++ [f]) (hashs ++ [h])
      (fun q hq => hh q (List.mem_cons_of_mem _ hq))
      (by simp only [List.length_append, List.length_cons]; omega)
    rw [← e2, ← e1] at hi
    simp only [List.length_append, List.length_cons, h32] at hi
    rw [e0, List.length_cons, parseAuditpathLoop, hb]
    simp only [Bool.false_eq_true, if_false, ZeroCopySource.NextHash, UINT256_SIZE, hn]
    rw [List.take_of_length_le (by omega), hi]
    simp

theorem parseAuditpath_unfold (path : List Nat) :
    parseAuditpath path =
      if (ZeroCopySource.NextVarBytes ⟨path, 0⟩).2.1 = true then AuditPath.nils
      else
        match parseAuditpathLoop
          (((ZeroCopySource.NextVarBytes ⟨path, 0⟩).2.2.s.length
            - (ZeroCopySource.NextVarBytes ⟨path, 0⟩).2.2.off) / 32)
          (ZeroCopySource.NextVarBytes ⟨path, 0⟩).2.2 [] [] with
        | none => AuditPath.nils
        | some (pos, hashs) =>
          ⟨some (ZeroCopySource.NextVarBytes ⟨path, 0⟩).1, some pos, some hashs, none⟩ := rfl

theorem parseAuditpath_eof (path : List Nat)
    (h : (ZeroCopySource.NextVarBytes ⟨path, 0⟩).2.1 = true) :
    parseAuditpath path = AuditPath.nils := by
  rw [parseAuditpath_unfold, if_pos h]

theorem parseAuditpath_value (path v : List Nat) (z1 : ZeroCopySource)
    (h : ZeroCopySource.NextVarBytes ⟨path, 0⟩ = (v, false, z1)) :
    parseAuditpath path =
      match parseAuditpathLoop ((z1.s.length - z1.off) / 32) z1 [] [] with
      | none => AuditPath.nils
      | some (pos, hashs) => ⟨some v, some pos, some hashs, none⟩ := by
  rw [parseAuditpath_unfold, h]
  simp only [Bool.false_eq_true, if_false]

theorem parseAuditpath_shape (path : List Nat) :
    parseAuditpath path = AuditPath.nils ∨
      ∃ v pos hashs, parseAuditpath path = ⟨some v, some pos, some hashs, none⟩ := by
  rw [parseAuditpath_unfold]
  split
  · left; rfl
  · split
    · left; rfl
    · right; exact ⟨_, _, _, rfl⟩

theorem parseAuditpath_cut_level (v rest : List Nat) (hl : v.length < 2 ^ 64)
    (h : rest.length < 33 * (rest.length / 32)) :
    parseAuditpath (varUint v.length ++ (v ++ rest)) = AuditPath.nils := by
  by_cases hv : (varUint v.length).length + v.length < 2 ^ 64
  · rw [parseAuditpath_value _ v _ (nextVarBytes_at v rest hv)]
    have e : ((varUint v.length ++ (v ++ rest)).length
        - ((varUint v.length).length + v.length)) / 32 = rest.length / 32 := by
      simp only [List.length_append]
      congr 1
      omega
    simp only [e]
    rw [parseAuditpathLoop_short _ _ _ _ (by simp only [List.length_append]; omega)
      (by simp only [List.length_append]; omega)]
  · apply parseAuditpath_eof
    unfold ZeroCopySource.NextVarBytes
    rw [nextVarUint_at v.length (v ++ rest) hl]
    simp only [Bool.false_eq_true, if_false]
    exact nextBytes_eof _ _ (Or.inl (by simp only; omega))

theorem parseAuditpath_cut_value (v w : List Nat) (hv : v.length < 2 ^ 64)
    (h : w.length < v.length) : parseAuditpath (varUint v.length ++ w) = AuditPath.nils :=
  parseAuditpath_eof _ (nextVarBytes_short v w hv h)

theorem flatten_levels_length (levels : List (Nat × List Nat))
    (hh : ∀ p ∈ levels, p.2.length = 32) :
    (levels.map fun p => p.1 :: p.2).flatten.length = 33 * levels.length := by
  induction levels with
  | nil => rfl
  | cons p levels ih =>
    have h32 := hh p (List.mem_cons_self _ _)
    have := ih fun q hq => hh q (List.mem_cons_of_mem _ hq)
    simp only [List.map_cons, List.flatten_cons, List.length_append, List.length_cons, this, h32]
    omega

/-- The decoder on a well-formed buffer: below 32 levels it gives back the value, the
flags and the hashes; from 32 levels on it returns nil for all three. -/
theorem parseAuditpath_encodeAuditpath (v : List Nat) (levels : List (Nat × List Nat))
    (hh : ∀ p ∈ levels, p.2.length = 32)
    (hlen : (encodeAuditpath v levels).length < 2 ^ 64) :
    parseAuditpath (encodeAuditpath v levels) =
      if levels.length < 32 then
        ⟨some v, some (levels.map fun p => p.1), some (levels.map fun p => p.2), none⟩
      else AuditPath.nils := by
  have hf := flatten_levels_length levels hh
  have e0 : encodeAuditpath v levels
      = varUint v.length ++ (v ++ (levels.map fun p => p.1 :: p.2).flatten) := by
    simp [encodeAuditpath]
  rw [e0] at hlen ⊢
  simp only [List.length_append, hf] at hlen
  by_cases hk : levels.length < 32
  · rw [if_pos hk, parseAuditpath_value _ v _ (nextVarBytes_at v _ (by omega))]
    have e : ((varUint v.length ++ (v ++ (levels.map fun p => p.1 :: p.2).flatten)).length
        - ((varUint v.length).length + v.length)) / 32 = levels.length := by
      simp only [List.length_append, hf]
      omega
    have hl := parseAuditpathLoop_levels levels (varUint v.length ++ v) [] [] [] hh
      (by simp only [List.length_append]; omega)
    simp only [List.append_nil, List.nil_append, List.append_assoc, List.length_append] at hl
    simp only [e, hl]
  · rw [if_neg hk]
    exact parseAuditpath_cut_level v _ (by omega) (by rw [hf]; omega)

/-! ## Lemmas: what a successful decode returns -/

theorem parseAuditpathLoop_some (n : Nat) (s : List Nat) (off : Nat) (pos : List Nat)
    (hashs : List (List Nat)) (p : List Nat) (h : List (List Nat)) (hoff : off ≤ s.length)
    (hres : parseAuditpathLoop n ⟨s, off⟩ pos hashs = some (p, h)) :
    off + 33 * n ≤ s.length ∧
      p = pos ++ (wholeLevels n (s.drop off)).map (fun l => l.1) ∧
      h = hashs ++ (wholeLevels n (s.drop off)).map (fun l => l.2) := by
  induction n generalizing off pos hashs with
  | zero =>
    simp only [parseAuditpathLoop, Option.some.injEq, Prod.mk.injEq] at hres
    exact ⟨by omega, by simp [wholeLevels, hres.1], by simp [wholeLevels, hres.2]⟩
  | succ n ih =>
    unfold parseAuditpathLoop at hres
    by_cases hb : s.length ≤ off
    · rw [nextByte_eof ⟨s, off⟩ hb] at hres
      simp at hres
    · rw [nextByte_ok ⟨s, off⟩ hb] at hres
      simp only [Bool.false_eq_true, if_false] at hres
      by_cases hh : 2 ^ 64 ≤ off + 1 + 32 ∨ s.length < off + 1 + 32
      · have he := nextHash_eof ⟨s, off + 1⟩ hh
        rcases hr : ZeroCopySource.NextHash ⟨s, off + 1⟩ with ⟨v, eof, z2⟩
        rw [hr] at he hres
        simp only at he
        simp [he] at hres
      · rw [nextHash_ok ⟨s, off + 1⟩ hh] at hres
        simp only [Bool.false_eq_true, if_false] at hres
        obtain ⟨h1, h2, h3⟩ := ih _ _ _ (by omega) hres
        have e1 : (s.drop off).drop 33 = s.drop (off + 1 + 32) := by
          rw [List.drop_drop]
        have e2 : List.take 32 ((s.take (off + 1 + 32)).drop (off + 1))
            = ((s.drop off).drop 1).take 32 := by
          rw [List.drop_drop, List.drop_take]
          simp
        have e3 : s.getD off 0 = (s.drop off).headD 0 := by
          simp [List.getD_eq_getElem?_getD, List.headD_eq_head?_getD, List.head?_drop]
        refine ⟨by omega, ?_, ?_⟩
        · rw [h2, wholeLevels, e1, e3]
          simp
        · rw [h3, wholeLevels, e1, e2]
          simp

theorem parseAuditpath_levels (v rest : List Nat) (hv : v.length < 2 ^ 64) :
    parseAuditpath (varUint v.length ++ (v ++ rest)) = AuditPath.nils ∨
      ∃ n, 33 * n ≤ rest.length ∧
        parseAuditpath (varUint v.length ++ (v ++ rest))
          = ⟨some v, some ((wholeLevels n rest).map fun l => l.1),
              some ((wholeLevels n rest).map fun l => l.2), none⟩ := by
  by_cases h64 : (varUint v.length).length + v.length < 2 ^ 64
  · rw [parseAuditpath_value _ v _ (nextVarBytes_at v rest h64)]
    have e : ((varUint v.length ++ (v ++ rest)).length
        - ((varUint v.length).length + v.length)) / 32 = rest.length / 32 := by
      simp only [List.length_append]
      congr 1
      omega
    simp only [e]
    cases hl : parseAuditpathLoop (rest.length / 32)
        ⟨varUint v.length ++ (v ++ rest), (varUint v.length).length + v.length⟩ [] [] with
    | none => left; rfl
    | some r =>
      obtain ⟨p, h⟩ := r
      obtain ⟨h1, h2, h3⟩ := parseAuditpathLoop_some _ _ _ _ _ _ _
        (by simp only [List.length_append]; omega) hl
      have ed : (varUint v.length ++ (v ++ rest)).drop ((varUint v.length).length + v.length)
          = rest := by
        rw [← List.append_assoc, ← List.length_append, List.drop_left]
      rw [ed] at h2 h3
      simp only [List.length_append] at h1
      right
      refine ⟨rest.length / 32, by omega, ?_⟩
      simp [h2, h3]
  · left
    apply parseAuditpath_eof
    unfold ZeroCopySource.NextVarBytes
    rw [nextVarUint_at v.length (v ++ rest) hv]
    simp only [Bool.false_eq_true, if_false]
    exact nextBytes_eof _ _ (Or.inl (by simp only; omega))

/-! ## C5: truncated audit paths -/

/-- C5, as stated, fails. On a buffer whose value is cut short (3 bytes announced, 2
present) and on the empty buffer `parseAuditpath` returns nil for all results, the error
included; on a buffer holding the value, one whole level and the first 20 bytes of a
second one, it returns the value and the one level with a nil error. -/
theorem parseAuditpath_truncated_nil_error :
    parseAuditpath [3, 1, 2] = ⟨none, none, none, none⟩ ∧
    parseAuditpath [] = ⟨none, none, none, none⟩ ∧
    parseAuditpath ([3, 1, 2, 3] ++ (5 :: List.replicate 32 7) ++ List.replicate 20 8)
      = ⟨some [1, 2, 3], some [5], some [List.replicate 32 7], none⟩ ∧
    ¬ ((parseAuditpath [3, 1, 2]).err ≠ none) := by
  decide

/-- C5, amended. `parseAuditpath` never returns a non-nil error, on a truncated buffer
or on any other: on every input it returns, with a nil error, either nil for value,
flags and hashes, or all three (it returns on every input: the embedding is a total
function with no panicking step). When the length-prefixed value is cut short it
returns the all-nil result. When the bytes `rest` after the value end inside a level (or
anywhere else) it returns either the all-nil result or the value with `n` levels that
`rest` holds in full (`33 * n ≤ len(rest)`), each a flag byte and its 32 hash bytes in
the order of the buffer: a cut level is never returned. -/
theorem parseAuditpath_truncated (v w rest : List Nat) (hv : v.length < 2 ^ 64) :
    (∀ path, (parseAuditpath path).err = none ∧
      (parseAuditpath path = AuditPath.nils ∨
        ∃ a pos hashs, parseAuditpath path = ⟨some a, some pos, some hashs, none⟩)) ∧
    (w.length < v.length → parseAuditpath (varUint v.length ++ w) = AuditPath.nils) ∧
    (parseAuditpath (varUint v.length ++ v ++ rest) = AuditPath.nils ∨
      ∃ n, 33 * n ≤ rest.length ∧
        parseAuditpath (varUint v.length ++ v ++ rest)
          = ⟨some v, some ((wholeLevels n rest).map fun l => l.1),
              some ((wholeLevels n rest).map fun l => l.2), none⟩) := by
  refine ⟨fun path => ?_, parseAuditpath_cut_value v w hv, ?_⟩
  · refine ⟨?_, parseAuditpath_shape path⟩
    rcases parseAuditpath_shape path with h | ⟨a, p, hs, h⟩ <;> simp [h, AuditPath.nils]
  · rw [List.append_assoc]
    exact parseAuditpath_levels v rest hv

/-- C5, amended, at the value `[1, 2, 3]`: cut to `[1, 2]`, and followed by one whole
level and 20 bytes of a second one. -/
theorem parseAuditpath_truncated_witness :
    [1, 2, 3].length < 2 ^ 64 ∧
    ([1, 2].length < [1, 2, 3].length ∧
      parseAuditpath (varUint [1, 2, 3].length ++ [1, 2]) = AuditPath.nils) ∧
    (parseAuditpath (varUint [1, 2, 3].length ++ [1, 2, 3]
        ++ ((5 :: List.replicate 32 7) ++ List.replicate 20 8)) = AuditPath.nils ∨
      ∃ n, 33 * n ≤ ((5 :: List.replicate 32 7) ++ List.replicate 20 8).length ∧
        parseAuditpath (varUint [1, 2, 3].length ++ [1, 2, 3]
            ++ ((5 :: List.replicate 32 7) ++ List.replicate 20 8))
          = ⟨some [1, 2, 3],
              some ((wholeLevels n ((5 :: List.replicate 32 7) ++ List.replicate 20 8)).map
                fun l => l.1),
              some ((wholeLevels n ((5 :: List.replicate 32 7) ++ List.replicate 20 8)).map
                fun l => l.2), none⟩) :=
  ⟨by decide,
    ⟨by decide, (parseAuditpath_truncated [1, 2, 3] [1, 2]
      ((5 :: List.replicate 32 7) ++ List.replicate 20 8) (by decide)).2.1 (by decide)⟩,
    (parseAuditpath_truncated [1, 2, 3] [1, 2]
      ((5 :: List.replicate 32 7) ++ List.replicate 20 8) (by decide)).2.2⟩

/-! ## C6: decoding a complete audit path -/

set_option maxRecDepth 100000 in
/-- C6 fails from 32 levels on. On the buffer made of the value `[1, 2, 3]` and 32
pairs (flag 1, hash of 32 bytes 9) the decoder returns nil for value, flags and hashes;
the claim has it return them. With 31 such pairs it does return them. -/
theorem parseAuditpath_32_levels :
    parseAuditpath (encodeAuditpath [1, 2, 3] (List.replicate 32 (1, List.replicate 32 9)))
      = ⟨none, none, none, none⟩ ∧
    parseAuditpath (encodeAuditpath [1, 2, 3] (List.replicate 31 (1, List.replicate 32 9)))
      = ⟨some [1, 2, 3], some (List.replicate 31 1),
          some (List.replicate 31 (List.replicate 32 9)), none⟩ := by
  decide

/-! ## Lemmas: handler loops -/

theorem andThen_ok (cs : List PolyCall) (k : Run) : Run.andThen ⟨cs, .ok⟩ k = k.after cs := rfl

theorem andThen_err (cs : List PolyCall) (e : String) (k : Run) :
    Run.andThen ⟨cs, .err e⟩ k = ⟨cs, .err e⟩ := rfl

theorem after_nil (r : Run) : r.after [] = r := rfl

theorem after_after (cs ds : List PolyCall) (r : Run) :
    (r.after ds).after cs = r.after (cs ++ ds) := by
  simp [Run.after]

theorem andThen_of_ok (r k : Run) (h : r.result = .ok) : r.andThen k = k.after r.calls := by
  unfold Run.andThen
  rw [h]

theorem andThen_after (cs : List PolyCall) (r k : Run) :
    (r.after cs).andThen k = (r.andThen k).after cs := by
  unfold Run.andThen
  cases hr : r.result <;> simp [Run.after, hr]

theorem andThen_assoc (r k l : Run) : (r.andThen k).andThen l = r.andThen (k.andThen l) := by
  obtain ⟨cs, res⟩ := r
  cases res with
  | ok => simp only [andThen_ok, andThen_after]
  | err e => rfl
  | panicked => rfl

theorem forEach_append {α : Type} (body : α → Run) (l₁ l₂ : List α) :
    forEach body (l₁ ++ l₂) = (forEach body l₁).andThen (forEach body l₂) := by
  induction l₁ with
  | nil => rfl
  | cons x xs ih =>
    show (body x).andThen (forEach body (xs ++ l₂)) = _
    rw [ih, forEach, andThen_assoc]

theorem forEach_skip {α : Type} (body : α → Run) (l : List α)
    (h : ∀ x ∈ l, body x = ⟨[], .ok⟩) : forEach body l = ⟨[], .ok⟩ := by
  induction l with
  | nil => rfl
  | cons x xs ih =>
    rw [forEach, h x (List.mem_cons_self _ _), andThen_ok,
      ih fun y hy => h y (List.mem_cons_of_mem _ hy)]
    rfl

theorem commitVotes_append (cs ds : List PolyCall) :
    commitVotes (cs ++ ds) = commitVotes cs ++ commitVotes ds := by
  simp [commitVotes, List.filterMap_append]

theorem decodeEvent_failed (conf : Config) (event : FlowEvent) (s e : String)
    (hf : event.fields.getLast? = some (.str s))
    (hd : (conf.hexDecodeString s).2 = some e ∨
      ((conf.hexDecodeString s).2 = none ∧
        conf.makeTxParam (conf.hexDecodeString s).1 = .error e)) :
    decodeEvent conf event = .failed e := by
  unfold decodeEvent
  simp only [hf]
  rcases hx : conf.hexDecodeString s with ⟨raw, err⟩
  rw [hx] at hd
  rcases hd with hd | ⟨hd, hm⟩
  · simp only at hd
    simp [hd]
  · simp only at hd hm
    simp [hd, hm]

theorem getStorages_append (cs ds : List PolyCall) :
    getStorages (cs ++ ds) = getStorages cs ++ getStorages ds := by
  simp [getStorages, List.filterMap_append]

theorem decodeEvent_ok (conf : Config) (event : FlowEvent) (s : String) (raw : List Nat)
    (param : MakeTxParam) (hf : event.fields.getLast? = some (.str s))
    (hx : conf.hexDecodeString s = (raw, none)) (hp : conf.makeTxParam raw = .ok param) :
    decodeEvent conf event = .ok raw param := by
  unfold decodeEvent
  simp only [hf, hx, hp]

theorem lockDepositEvent_ok (conf : Config) (height : Nat) (ea : FlowEvent × VoteAnswers)
    (s : String) (raw : List Nat) (param : MakeTxParam)
    (hf : ea.1.type = conf.eventType → ea.1.fields.getLast? = some (.str s))
    (hx : ea.1.type = conf.eventType → conf.hexDecodeString s = (raw, none))
    (hp : ea.1.type = conf.eventType → conf.makeTxParam raw = .ok param)
    (hcommit : ∃ txHash, ea.2.commit = .ok txHash) (hwait : ea.2.wait = none) :
    (lockDepositEvent conf height ea).result = .ok ∧
    commitVotes (lockDepositEvent conf height ea).calls
      = (if (decide (ea.1.type = conf.eventType) && conf.isWhitelistMethod param.method &&
            decide (ea.2.getStorage
              (conf.doneTx ++ putUintLE 8 conf.sideChainId ++ param.crossChainID) = []))
          = true
        then [(height % 2 ^ 32, raw, ea.1.transactionID)] else []) ∧
    getStorages (lockDepositEvent conf height ea).calls
      = (if (decide (ea.1.type = conf.eventType) && conf.isWhitelistMethod param.method)
          = true
        then [conf.doneTx ++ putUintLE 8 conf.sideChainId ++ param.crossChainID] else []) := by
  obtain ⟨txHash, hc⟩ := hcommit
  unfold lockDepositEvent
  by_cases ht : ea.1.type = conf.eventType
  · have hd := decodeEvent_ok conf ea.1 s raw param (hf ht) (hx ht) (hp ht)
    by_cases hwl : conf.isWhitelistMethod param.method = true
    · by_cases hdone : ea.2.getStorage
          (conf.doneTx ++ putUintLE 8 conf.sideChainId ++ param.crossChainID) = []
      · simp only [List.append_assoc] at hdone
        simp [ht, hd, hwl, hdone, hc, hwait, commitVotes, getStorages]
      · simp only [List.append_assoc] at hdone
        simp [ht, hd, hwl, hdone, commitVotes, getStorages]
    · simp [ht, hd, hwl, commitVotes, getStorages]
  · simp [ht, commitVotes, getStorages]

/-! ## C4: which events are submitted -/

/-- C4. Take any list of events returned for a height in which every event of the
configured type is decodable (its last field is the string `field e`, which hex-decodes
to the bytes `raw e`, which deserialize to the record `param e`) and for which every
submission and every confirmation succeeds. Then `fetchLockDepositEvents` returns
success; its `commitVote` calls are, in the order of the events and once each, those for
the events of the configured type whose decoded method is allow-listed and for which the
done-marker query, keyed by the side-chain id and the record's cross-chain id, returned
nothing, each with the 32-bit height, the decoded bytes and the event's transaction id;
and the done-marker query is made, with that key, exactly for the events of the
configured type with an allow-listed method. -/
theorem fetchLockDepositEvents_submits (conf : Config) (height : Nat)
    (events : List (FlowEvent × VoteAnswers)) (more : List (List (FlowEvent × VoteAnswers)))
    (field : FlowEvent → String) (raw : FlowEvent → List Nat) (param : FlowEvent → MakeTxParam)
    (hfield : ∀ ea ∈ events, ea.1.type = conf.eventType →
      ea.1.fields.getLast? = some (.str (field ea.1)))
    (hhex : ∀ ea ∈ events, ea.1.type = conf.eventType →
      conf.hexDecodeString (field ea.1) = (raw ea.1, none))
    (hparam : ∀ ea ∈ events, ea.1.type = conf.eventType →
      conf.makeTxParam (raw ea.1) = .ok (param ea.1))
    (hcommit : ∀ ea ∈ events, ∃ txHash, ea.2.commit = .ok txHash)
    (hwait : ∀ ea ∈ events, ea.2.wait = none) :
    (fetchLockDepositEvents conf height (.ok (events :: more))).result = .ok ∧
    commitVotes (fetchLockDepositEvents conf height (.ok (events :: more))).calls
      = (events.filter fun ea =>
          decide (ea.1.type = conf.eventType) && conf.isWhitelistMethod (param ea.1).method &&
            decide (ea.2.getStorage
              (conf.doneTx ++ putUintLE 8 conf.sideChainId ++ (param ea.1).crossChainID) = [])).map
          (fun ea => (height % 2 ^ 32, raw ea.1, ea.1.transactionID)) ∧
    getStorages (fetchLockDepositEvents conf height (.ok (events :: more))).calls
      = (events.filter fun ea =>
          decide (ea.1.type = conf.eventType) && conf.isWhitelistMethod (param ea.1).method).map
          (fun ea => conf.doneTx ++ putUintLE 8 conf.sideChainId ++ (param ea.1).crossChainID) := by
  simp only [fetchLockDepositEvents]
  induction events with
  | nil => exact ⟨rfl, rfl, rfl⟩
  | cons ea events ih =>
    obtain ⟨ih1, ih2, ih3⟩ := ih (fun x hx => hfield x (List.mem_cons_of_mem _ hx))
      (fun x hx => hhex x (List.mem_cons_of_mem _ hx))
      (fun x hx => hparam x (List.mem_cons_of_mem _ hx))
      (fun x hx => hcommit x (List.mem_cons_of_mem _ hx))
      (fun x hx => hwait x (List.mem_cons_of_mem _ hx))
    obtain ⟨h1, h2, h3⟩ := lockDepositEvent_ok conf height ea (field ea.1) (raw ea.1)
      (param ea.1) (hfield ea (List.mem_cons_self _ _)) (hhex ea (List.mem_cons_self _ _))
      (hparam ea (List.mem_cons_self _ _)) (hcommit ea (List.mem_cons_self _ _))
      (hwait ea (List.mem_cons_self _ _))
    rw [forEach, andThen_of_ok _ _ h1]
    refine ⟨ih1, ?_, ?_⟩
    · simp only [Run.after, commitVotes_append, h2, ih2, List.filter_cons]
      split <;> simp
    · simp only [Run.after, getStorages_append, h3, ih3, List.filter_cons]
      split <;> simp

/-- C4 on three events: a decodable allow-listed one that is not done, one whose done
marker exists under its key, and one of another type; only the first is submitted, and
the done marker is queried for the first two. -/
theorem fetchLockDepositEvents_submits_witness :
    (fetchLockDepositEvents Config.example 100
      (.ok ([(FlowEvent.wellFormed, VoteAnswers.accepted),
        (FlowEvent.wellFormed, VoteAnswers.alreadyDone),
        (FlowEvent.unrelated, VoteAnswers.accepted)] :: []))).result = .ok ∧
    commitVotes (fetchLockDepositEvents Config.example 100
      (.ok ([(FlowEvent.wellFormed, VoteAnswers.accepted),
        (FlowEvent.wellFormed, VoteAnswers.alreadyDone),
        (FlowEvent.unrelated, VoteAnswers.accepted)] :: []))).calls
      = [(100, [1, 7], [2])] ∧
    getStorages (fetchLockDepositEvents Config.example 100
      (.ok ([(FlowEvent.wellFormed, VoteAnswers.accepted),
        (FlowEvent.wellFormed, VoteAnswers.alreadyDone),
        (FlowEvent.unrelated, VoteAnswers.accepted)] :: []))).calls
      = [[100, 111, 110, 101, 84, 120, 7, 0, 0, 0, 0, 0, 0, 0, 9],
          [100, 111, 110, 101, 84, 120, 7, 0, 0, 0, 0, 0, 0, 0, 9]] :=
  fetchLockDepositEvents_submits Config.example 100 _ []
    (fun _ => "0107") (fun _ => [1, 7]) (fun _ => ⟨"lock", [9]⟩)
    (by
      intro ea hea ht
      simp only [List.mem_cons, List.mem_singleton, List.not_mem_nil, or_false] at hea
      rcases hea with rfl | rfl | rfl
      · rfl
      · rfl
      · exact absurd ht (by decide))
    (by intro ea _ _; rfl)
    (by intro ea _ _; rfl)
    (by
      intro ea hea
      simp only [List.mem_cons, List.mem_singleton, List.not_mem_nil, or_false] at hea
      rcases hea with rfl | rfl | rfl <;> exact ⟨"tx", rfl⟩)
    (by
      intro ea hea
      simp only [List.mem_cons, List.mem_singleton, List.not_mem_nil, or_false] at hea
      rcases hea with rfl | rfl | rfl <;> rfl)

/-! ## C8: a malformed payload -/

/-- C8, as stated, fails. At a height whose events are a malformed one followed by a
well-formed one, `fetchLockDepositEvents` returns the decode error and submits nothing,
although the well-formed event alone is submitted; and the tick that gets this error
leaves `nextHeight` at the height. -/
theorem malformed_event_stops_height :
    fetchLockDepositEvents Config.example 100
      (.ok [[(FlowEvent.malformed, VoteAnswers.accepted),
        (FlowEvent.wellFormed, VoteAnswers.accepted)]]) = ⟨[], .err "invalid byte"⟩ ∧
    commitVotes (fetchLockDepositEvents Config.example 100
      (.ok [[(FlowEvent.wellFormed, VoteAnswers.accepted)]])).calls = [(100, [1, 7], [2])] ∧
    (monitorFlowTick (Monitor.start 100 BoltDB.empty) (.ok 104)
      (Outcome.err "invalid byte").obs true).nextHeight = 100 ∧
    (monitorFlowTick (Monitor.start 100 BoltDB.empty) (.ok 104)
      (Outcome.err "invalid byte").obs true).log = [Action.handle 100 false] := by
  decide

/-- C8, amended. When an event of the configured type has a malformed payload (its last
field is a string whose hex decoding fails, or whose bytes do not deserialize),
`fetchLockDepositEvents` returns that decode error at once: the events before it are
processed as usual, no event after it is processed in that call, and the per-height loop
of a monitor that gets this error does not advance but handles the same height again. -/
theorem malformed_event_returns_error (conf : Config) (height : Nat)
    (pre post : List (FlowEvent × VoteAnswers)) (more : List (List (FlowEvent × VoteAnswers)))
    (bad : FlowEvent) (ans : VoteAnswers) (s e : String)
    (hpre : (forEach (lockDepositEvent conf height) pre).result = .ok)
    (htype : bad.type = conf.eventType)
    (hfield : bad.fields.getLast? = some (.str s))
    (hbad : (conf.hexDecodeString s).2 = some e ∨
      ((conf.hexDecodeString s).2 = none ∧
        conf.makeTxParam (conf.hexDecodeString s).1 = .error e)) :
    fetchLockDepositEvents conf height (.ok ((pre ++ (bad, ans) :: post) :: more))
      = ⟨(forEach (lockDepositEvent conf height) pre).calls, .err e⟩ ∧
    ∀ W bound obs n, n < bound →
      heightLoop W bound ((Outcome.err e).obs ++ obs) n
        = (heightLoop W bound obs n).cons (Action.handle n false) := by
  constructor
  · have hb : lockDepositEvent conf height (bad, ans) = ⟨[], .err e⟩ := by
      simp [lockDepositEvent, htype, decodeEvent_failed conf bad s e hfield hbad]
    simp only [fetchLockDepositEvents]
    rw [forEach_append, forEach, hb, andThen_err, andThen_of_ok _ _ hpre]
    simp [Run.after]
  · intro W bound obs n hn
    exact heightLoop_failed W bound obs n e hn

/-- C8, amended, with a well-formed event before the malformed one and one after it. -/
theorem malformed_event_returns_error_witness :
    fetchLockDepositEvents Config.example 100
      (.ok (([(FlowEvent.wellFormed, VoteAnswers.accepted)]
        ++ (FlowEvent.malformed, VoteAnswers.accepted)
          :: [(FlowEvent.wellFormed, VoteAnswers.accepted)]) :: []))
      = ⟨(forEach (lockDepositEvent Config.example 100)
          [(FlowEvent.wellFormed, VoteAnswers.accepted)]).calls, .err "invalid byte"⟩ :=
  (malformed_event_returns_error Config.example 100
    [(FlowEvent.wellFormed, VoteAnswers.accepted)]
    [(FlowEvent.wellFormed, VoteAnswers.accepted)] [] FlowEvent.malformed
    VoteAnswers.accepted "zz" "invalid byte" (by decide) (by decide) (by decide)
    (Or.inl (by decide))).1

/-! ## Lemmas: the relay-chain handler -/

theorem makeTxNotify_passedOver (conf : Config) (hdrHeight : Nat)
    (na : NotifyEventInfo × SigAnswers) (h : passedOver conf na.1) :
    makeTxNotify conf hdrHeight na = ⟨[], .ok⟩ := by
  unfold makeTxNotify
  by_cases hc : na.1.contractAddress = conf.entranceContractAddress
  · rcases h with h | ⟨states, s0, hs, h0, h⟩
    · exact absurd hc h
    · simp only [hc, ne_eq, not_true_eq_false, if_false, hs, h0]
      rcases h with h | ⟨sid, h2, hsid⟩
      · simp [h]
      · by_cases hm : s0 = .str "makeProof"
        · simp [hm, h2, hsid]
        · simp [hm]
  · simp [hc]

theorem makeTxNotify_makeProof (conf : Config) (hdrHeight : Nat) (key : String)
    (na : NotifyEventInfo × SigAnswers) (h : isMakeProof conf key na.1)
    (proofHex : String) (sig : List Nat) (txHash : String)
    (hproof : na.2.proof = .ok proofHex)
    (hvalue : conf.toMerkleValue
      ((parseAuditpath (conf.hexDecodeString proofHex).1).value.getD []) = none)
    (hsign : na.2.sign = .ok sig) (hcommit : na.2.commit = .ok txHash) :
    makeTxNotify conf hdrHeight na =
      ⟨[.getCrossStatesProof ((hdrHeight + 2 ^ 32 - 1) % 2 ^ 32) key,
        .parseAuditpath (conf.hexDecodeString proofHex).1,
        .sign4Flow ((parseAuditpath (conf.hexDecodeString proofHex).1).value.getD []),
        .commitSig ((parseAuditpath (conf.hexDecodeString proofHex).1).value.getD []) sig,
        .waitTx txHash],
        match na.2.wait with
        | none => .ok
        | some e => .err e⟩ := by
  obtain ⟨hc, states, hs, h0, h2, h5⟩ := h
  unfold makeTxNotify
  simp only [hc, ne_eq, not_true_eq_false, if_false, hs, h0, h2, h5, hproof, hvalue, hsign,
    hcommit]
  cases na.2.wait <;> rfl

/-! ## C7: one settlement request -/

/-- C7, as stated, fails: for the notification at height 50 (header at 51 reporting
height 51) the proof is fetched at height 50, not 49. The calls are one header fetch, one
event fetch, one proof fetch at 50, one decode, one sign, one signature submission and
one confirmation wait. -/
theorem handleMakeTxEvents_fetches_at_height :
    (handleMakeTxEvents Config.example 50 (.ok 51)
      (.ok [[(NotifyEventInfo.makeProof, SigAnswers.confirmed)]])).calls
      = [.getHeaderByHeight 51, .getSmartContractEventByBlock 50,
          .getCrossStatesProof 50 "key", .parseAuditpath [1, 7], .sign4Flow [7],
          .commitSig [7] [5], .waitTx "tx"] ∧
    PolyCall.getCrossStatesProof 49 "key" ∉
      (handleMakeTxEvents Config.example 50 (.ok 51)
        (.ok [[(NotifyEventInfo.makeProof, SigAnswers.confirmed)]])).calls := by
  decide

/-- C7, amended. For every relay-chain height `h` (with `h + 1` a 32-bit number) whose
header at `h + 1` reports height `h + 1` and whose block carries exactly one settlement
request for this relayer, every other notification being passed over: when the proof
fetch, the deserialization of the decoded value, the signing and the signature
submission succeed, `handleMakeTxEvents h` makes exactly one proof fetch, at height `h`
(50 for a notification at height 50), then one audit-path decode, one sign, one signature
submission and one confirmation wait; it returns what the wait returned, and when the
wait fails the per-height loop does not advance but handles `h` again. -/
theorem handleMakeTxEvents_one_request (conf : Config) (h : Nat) (key : String)
    (before after : List (List (NotifyEventInfo × SigAnswers)))
    (ns₁ ns₂ : List (NotifyEventInfo × SigAnswers)) (nt : NotifyEventInfo) (ans : SigAnswers)
    (proofHex : String) (sig : List Nat) (txHash : String)
    (hh : h + 1 < 2 ^ 32)
    (hothers : ∀ ev ∈ before ++ after, ∀ na ∈ ev, passedOver conf na.1)
    (hsame : ∀ na ∈ ns₁ ++ ns₂, passedOver conf na.1)
    (hnt : isMakeProof conf key nt)
    (hproof : ans.proof = .ok proofHex)
    (hvalue : conf.toMerkleValue
      ((parseAuditpath (conf.hexDecodeString proofHex).1).value.getD []) = none)
    (hsign : ans.sign = .ok sig) (hcommit : ans.commit = .ok txHash) :
    (handleMakeTxEvents conf h (.ok (h + 1))
        (.ok (before ++ (ns₁ ++ (nt, ans) :: ns₂) :: after))).calls
      = [.getHeaderByHeight (h + 1), .getSmartContractEventByBlock h,
          .getCrossStatesProof h key,
          .parseAuditpath (conf.hexDecodeString proofHex).1,
          .sign4Flow ((parseAuditpath (conf.hexDecodeString proofHex).1).value.getD []),
          .commitSig ((parseAuditpath (conf.hexDecodeString proofHex).1).value.getD []) sig,
          .waitTx txHash] ∧
    (handleMakeTxEvents conf h (.ok (h + 1))
        (.ok (before ++ (ns₁ ++ (nt, ans) :: ns₂) :: after))).result
      = (match ans.wait with
        | none => .ok
        | some e => .err e) ∧
    ∀ e, ans.wait = some e → ∀ bound obs, h < bound →
      heightLoop (2 ^ 32) bound
          ((handleMakeTxEvents conf h (.ok (h + 1))
            (.ok (before ++ (ns₁ ++ (nt, ans) :: ns₂) :: after))).result.obs ++ obs) h
        = (heightLoop (2 ^ 32) bound obs h).cons (Action.handle h false) := by
  have e1 : (h + 1) % 2 ^ 32 = h + 1 := Nat.mod_eq_of_lt hh
  have e2 : (h + 1 + 2 ^ 32 - 1) % 2 ^ 32 = h := by omega
  have hskip : ∀ l : List (NotifyEventInfo × SigAnswers), (∀ na ∈ l, passedOver conf na.1) →
      forEach (makeTxNotify conf (h + 1)) l = ⟨[], .ok⟩ := fun l hl =>
    forEach_skip _ l fun na hna => makeTxNotify_passedOver conf (h + 1) na (hl na hna)
  have hbefore : forEach (fun ev => forEach (makeTxNotify conf (h + 1)) ev) before
      = ⟨[], .ok⟩ :=
    forEach_skip _ before fun ev hev =>
      hskip ev (hothers ev (List.mem_append_left _ hev))
  have hafter : forEach (fun ev => forEach (makeTxNotify conf (h + 1)) ev) after
      = ⟨[], .ok⟩ :=
    forEach_skip _ after fun ev hev =>
      hskip ev (hothers ev (List.mem_append_right _ hev))
  have h1 := hskip ns₁ fun na hna => hsame na (List.mem_append_left _ hna)
  have h2 := hskip ns₂ fun na hna => hsame na (List.mem_append_right _ hna)
  have hn := makeTxNotify_makeProof conf (h + 1) key (nt, ans) hnt proofHex sig txHash
    hproof hvalue hsign hcommit
  rw [e2] at hn
  have hev : forEach (makeTxNotify conf (h + 1)) (ns₁ ++ (nt, ans) :: ns₂)
      = makeTxNotify conf (h + 1) (nt, ans) := by
    rw [forEach_append, h1, andThen_ok, after_nil, forEach, h2, hn]
    cases ans.wait <;> rfl
  have hall : forEach (fun ev => forEach (makeTxNotify conf (h + 1)) ev)
      (before ++ (ns₁ ++ (nt, ans) :: ns₂) :: after) = makeTxNotify conf (h + 1) (nt, ans) := by
    rw [forEach_append, hbefore, andThen_ok, after_nil, forEach, hafter, hev, hn]
    cases ans.wait <;> rfl
  have hrun : handleMakeTxEvents conf h (.ok (h + 1))
      (.ok (before ++ (ns₁ ++ (nt, ans) :: ns₂) :: after))
      = (makeTxNotify conf (h + 1) (nt, ans)).after
          [.getHeaderByHeight (h + 1), .getSmartContractEventByBlock h] := by
    simp only [handleMakeTxEvents, hall, e1]
  rw [hrun, hn]
  refine ⟨rfl, rfl, ?_⟩
  intro e he bound obs hb
  simp only [Run.after, he, Outcome.obs, List.singleton_append]
  exact heightLoop_failed (2 ^ 32) bound obs h e hb

/-- C7, amended, at height 50 with a confirmation that times out. -/
theorem handleMakeTxEvents_one_request_witness :
    (handleMakeTxEvents Config.example 50 (.ok (50 + 1))
        (.ok ([] ++ ([] ++ (NotifyEventInfo.makeProof, SigAnswers.timedOut) :: []) :: []))).calls
      = [.getHeaderByHeight (50 + 1), .getSmartContractEventByBlock 50,
          .getCrossStatesProof 50 "key",
          .parseAuditpath (Config.example.hexDecodeString "0107").1,
          .sign4Flow
            ((parseAuditpath (Config.example.hexDecodeString "0107").1).value.getD []),
          .commitSig
            ((parseAuditpath (Config.example.hexDecodeString "0107").1).value.getD []) [5],
          .waitTx "tx"] ∧
    (handleMakeTxEvents Config.example 50 (.ok (50 + 1))
        (.ok ([] ++ ([] ++ (NotifyEventInfo.makeProof, SigAnswers.timedOut) :: []) :: []))).result
      = .err "waitTx timeout" :=
  have h := handleMakeTxEvents_one_request Config.example 50 "key" [] [] [] []
    NotifyEventInfo.makeProof SigAnswers.timedOut "0107" [5] "tx" (by decide)
    (by simp) (by simp)
    ⟨rfl, _, rfl, rfl, rfl, rfl⟩ rfl (by decide) rfl rfl
  ⟨h.1, h.2.1⟩

end FlowVoter
